import Mathlib

/-!
Verification development for the llms.txt discovery / extraction repository.

JavaScript strings are modelled as lists of characters (`Str`); the regex
fragments used by the source are compiled by hand into executable character
scanners with the exact matching semantics of the original patterns
(leftmost match, greedy quantifiers with backtracking, `m`/`i`/`g` flags as
used at each site).  Network-bound code is modelled by threading an explicit
environment of responses and an explicit state (elapsed time, scanned URLs,
fetch trace) through the translated control flow.
-/

set_option maxRecDepth 100000

/-- JavaScript strings, modelled as lists of characters. -/
abbrev Str := List Char

/-- Membership of a character in the ECMAScript `\s` class (as used by the
source's regexes and by `String.prototype.trim`). -/
def jsWs (c : Char) : Bool :=
  c.toNat = 0x20 ∨ c.toNat = 0x9 ∨ c.toNat = 0xA ∨ c.toNat = 0xD ∨
  c.toNat = 0xB ∨ c.toNat = 0xC ∨
  c.toNat = 0xA0 ∨ c.toNat = 0x1680 ∨ (0x2000 ≤ c.toNat ∧ c.toNat ≤ 0x200A) ∨
  c.toNat = 0x2028 ∨ c.toNat = 0x2029 ∨ c.toNat = 0x202F ∨ c.toNat = 0x205F ∨
  c.toNat = 0x3000 ∨ c.toNat = 0xFEFF

/-- ASCII lower-casing of one character (model of `String.prototype.toLowerCase`
restricted to the ASCII range; every string the source lower-cases is
compared against ASCII literals). -/
def lowCh (c : Char) : Char :=
  if 'A' ≤ c ∧ c ≤ 'Z' then Char.ofNat (c.toNat + 32) else c

/-- Model of `String.prototype.toLowerCase`. -/
def lowerStr (s : Str) : Str := s.map lowCh

/-- Model of `String.prototype.trim` (strip leading and trailing `\s`). -/
def jsTrim (s : Str) : Str :=
  ((s.dropWhile jsWs).reverse.dropWhile jsWs).reverse

/-- Does `s` start with the pattern `p` (literal match)? -/
def startsW : Str → Str → Bool
  | [], _ => true
  | _ :: _, [] => false
  | p :: ps, c :: cs => p = c && startsW ps cs

/-- Does `s` start with the pattern `p`, comparing case-insensitively
(`p` is given in lower case)? -/
def startsWCI : Str → Str → Bool
  | [], _ => true
  | _ :: _, [] => false
  | p :: ps, c :: cs => p = lowCh c && startsWCI ps cs

/-- Model of `String.prototype.includes`: does `hay` contain `needle`? -/
def containsS (hay needle : Str) : Bool :=
  if startsW needle hay then true
  else
    match hay with
    | [] => false
    | _ :: t => containsS t needle

/-- Model of `String.prototype.split` with a one-character separator. -/
def splitCh (sep : Char) : Str → List Str
  | [] => [[]]
  | c :: rest =>
    match splitCh sep rest with
    | [] => [[]]
    | s :: ss => if c = sep then [] :: s :: ss else (c :: s) :: ss

/-- Model of `Array.prototype.join` with a one-character separator. -/
def joinCh (sep : Char) : List Str → Str
  | [] => []
  | [l] => l
  | l :: ls => l ++ sep :: joinCh sep ls

/-- Model of `String.prototype.endsWith`. -/
def endsW (suffix s : Str) : Bool := startsW suffix.reverse s.reverse

/-- Decimal digit character. -/
def digitCh (n : Nat) : Char := Char.ofNat (48 + n)

/-- Decimal rendering of a natural number (fuel-based so that it reduces in
the kernel). -/
def natStrAux : Nat → Nat → Str
  | 0, _ => []
  | fuel + 1, n =>
    if n < 10 then [digitCh n]
    else natStrAux fuel (n / 10) ++ [digitCh (n % 10)]

/-- Decimal rendering of a natural number. -/
def natStr (n : Nat) : Str := natStrAux (n + 1) n

/-- ASCII word character, the ECMAScript `\w` class (used for `\b`). -/
def isWordCh (c : Char) : Bool :=
  ('A' ≤ c ∧ c ≤ 'Z') ∨ ('a' ≤ c ∧ c ≤ 'z') ∨ ('0' ≤ c ∧ c ≤ '9') ∨ c = '_'

-- ===========================================================================
-- Literal fragments appearing in the source's regexes and templates
-- ===========================================================================

/-- Lower-cased literal of the `/##\s*TODO/i` tail. -/
def litTodo : Str := "todo".data

/-- Lower-cased literal of `/OBJECTIVE:/i`. -/
def litObjective : Str := "objective:".data

/-- Lower-cased literal of `/DONE WHEN:/i`. -/
def litDoneWhen : Str := "done when:".data

/-- Lower-cased literal of `/EXECUTE NOW:/i`. -/
def litExecuteNow : Str := "execute now:".data

/-- Lower-cased literal of `/EXECUTE NOW/i` (section-boundary variant,
without the colon). -/
def litExecuteNowBare : Str := "execute now".data

/-- Literal `##` boundary fragment (preceded by a newline in the lookahead). -/
def litH2 : Str := "##".data

/-- Literal `---` boundary fragment. -/
def litDashes : Str := "---".data

-- ===========================================================================
-- install.md parser & validator (src/src/lib/install-md-parser.ts)
-- ===========================================================================

/-- A TODO checklist item.  The source also attaches a random `id`
(`generateId`, non-deterministic I/O) which no claim mentions; it is omitted
from the model. -/
structure TodoItem where
  text : Str
  completed : Bool
deriving DecidableEq, Repr

/-- Matcher for the regex `/^#\s+\S/m` at one position (which must be a line
start): `#`, at least one whitespace character, then a non-whitespace
character. -/
def matchH1At (l : Str) : Bool :=
  match l with
  | '#' :: t =>
    match t with
    | [] => false
    | c :: _ => jsWs c && (t.dropWhile jsWs ≠ [])
  | _ => false

/-- Test of `/^#\s+\S/m` against a whole string: scan every position, keeping
track of whether it is a line start. -/
def hasH1Scan : Bool → Str → Bool
  | _, [] => false
  | atLS, c :: t =>
    (atLS && matchH1At (c :: t)) || hasH1Scan (c = '\n') t

/-- Test of `/^#\s+\S/m`. -/
def hasH1 (content : Str) : Bool := hasH1Scan true content

/-- Case-insensitive substring test, modelling `/lit/i.test(content)` for a
literal `lit` (given in lower case). -/
def containsCI (content : Str) (needleLower : Str) : Bool :=
  containsS (lowerStr content) needleLower

/-- Matcher for `/##\s*TODO/i` at one position: `##`, any whitespace, then
`todo` case-insensitively. -/
def matchTodoAt (l : Str) : Bool :=
  match l with
  | '#' :: '#' :: t => startsWCI litTodo (t.dropWhile jsWs)
  | _ => false

/-- Test of `/##\s*TODO/i` (not anchored, so every position is tried). -/
def hasTodoScan : Str → Bool
  | [] => false
  | c :: t => matchTodoAt (c :: t) || hasTodoScan t

/-- Test of `/##\s*TODO/i`. -/
def hasTodo (content : Str) : Bool := hasTodoScan content

/-- Test of `/OBJECTIVE:/i`. -/
def hasObjective (content : Str) : Bool := containsCI content litObjective

/-- Test of `/DONE WHEN:/i`. -/
def hasDoneWhen (content : Str) : Bool := containsCI content litDoneWhen

/-- Test of `/EXECUTE NOW:/i`. -/
def hasExecuteNow (content : Str) : Bool := containsCI content litExecuteNow

/-- The negative lookahead `(?!TODO\b)` of the step-section regex, under the
`i` flag: it fails exactly when the text starts with `todo`
(case-insensitively) followed by a word boundary. -/
def todoBoundaryAt (l : Str) : Bool :=
  startsWCI litTodo l &&
    (match l.drop 4 with
     | [] => true
     | c :: _ => !isWordCh c)

/-- One backtracking attempt of `\s+(?!TODO\b).+$` after `##`: `w` is the
maximal whitespace run, `a` the text after it; the attempt keeping `k + 1`
whitespace characters is tried first with `k + 1 = w.length`, then smaller.
On success, returns the remainder of the string after the match (the match
runs to the end of the line on which `.+` starts). -/
def stepTryK (w a : Str) : Nat → Option Str
  | 0 => none
  | k + 1 =>
    match w.drop (k + 1) ++ a with
    | c :: rest =>
      if c ≠ '\n' ∧ todoBoundaryAt (c :: rest) = false then
        some ((c :: rest).dropWhile (· ≠ '\n'))
      else stepTryK w a k
    | [] => stepTryK w a k

/-- Matcher for `/^##\s+(?!TODO\b).+$/m` at one line-start position.  On
success, returns the remainder after the match. -/
def matchStepAt (l : Str) : Option Str :=
  match l with
  | '#' :: '#' :: t => stepTryK (t.takeWhile jsWs) (t.dropWhile jsWs) (t.takeWhile jsWs).length
  | _ => none

/-- Global scan for `/^##\s+(?!TODO\b).+$/gm`, counting the non-overlapping
matches.  `skip` is the number of remaining characters inside the previous
match (scanning resumes after it); `atLS` records whether the current
position is a line start. -/
def countStepGo : Nat → Bool → Str → Nat
  | _, _, [] => 0
  | s + 1, _, c :: t => countStepGo s (c = '\n') t
  | 0, atLS, c :: t =>
    if atLS then
      match matchStepAt (c :: t) with
      | some rest => 1 + countStepGo (t.length - rest.length) (c = '\n') t
      | none => countStepGo 0 (c = '\n') t
    else countStepGo 0 (c = '\n') t

/-- Number of matches of `/^##\s+(?!TODO\b).+$/gm` in `content` (the source
counts them via `content.match(...)`). -/
def countStepSections (content : Str) : Nat := countStepGo 0 true content

/-- Matcher for the TODO-section header `##\s*TODO\s*\n` (case-insensitive)
at one position.  The trailing `\s*\n` is greedy with backtracking, so it
consumes the whitespace run up to and including its last newline.  On
success, returns the remainder (the start of the captured section). -/
def matchTodoHeaderAt (l : Str) : Option Str :=
  match l with
  | '#' :: '#' :: t =>
    let afterTodoWs := t.dropWhile jsWs
    if startsWCI litTodo afterTodoWs then
      let after := afterTodoWs.drop 4
      let w := after.takeWhile jsWs
      let a := after.dropWhile jsWs
      -- `\s*\n` consumes `w` up to and including the last newline in it;
      -- it fails when `w` contains no newline.
      if w.reverse.dropWhile (· ≠ '\n') = [] then none
      else some ((w.reverse.takeWhile (· ≠ '\n')).reverse ++ a)
    else none
  | _ => none

/-- Does the lookahead `(?=\n##|\n---|\nEXECUTE NOW|$)` (under `/i`) hold at
the head of `l`?  The `$` alternative corresponds to `l = []`. -/
def todoSectionBoundary (l : Str) : Bool :=
  match l with
  | [] => true
  | '\n' :: t => startsW litH2 t || startsW litDashes t || startsWCI litExecuteNowBare t
  | _ => false

/-- Lazy capture `[\s\S]*?` up to the first boundary position. -/
def takeUntilBoundary : Str → Str
  | [] => []
  | c :: t => if todoSectionBoundary (c :: t) then [] else c :: takeUntilBoundary t

/-- Leftmost match of `/##\s*TODO\s*\n([\s\S]*?)(?=\n##|\n---|\nEXECUTE NOW|$)/i`:
the captured TODO section, if any. -/
def findTodoSection : Str → Option Str
  | [] => none
  | c :: t =>
    match matchTodoHeaderAt (c :: t) with
    | some capStart => some (takeUntilBoundary capStart)
    | none => findTodoSection t

/-- Matcher for `/^-\s*\[([ xX])\]\s*(.+)$/m` at one line-start position.
Returns the checkbox character, the text captured by `(.+)`, and the
remainder after the match. -/
def matchCheckboxAt (l : Str) : Option (Char × Str × Str) :=
  match l with
  | '-' :: t =>
    match t.dropWhile jsWs with
    | '[' :: c :: ']' :: t2 =>
      if c = ' ' ∨ c = 'x' ∨ c = 'X' then
        match t2.dropWhile jsWs with
        | r :: rest =>
          some (c, (r :: rest).takeWhile (· ≠ '\n'), (r :: rest).dropWhile (· ≠ '\n'))
        | [] =>
          -- `\s*` consumed everything; backtrack to the last non-newline
          -- whitespace character, which `.+` then matches on its own.
          match t2.reverse.dropWhile (· = '\n') with
          | [] => none
          | ch :: _ => some (c, [ch], (t2.reverse.takeWhile (· = '\n')).reverse)
      else none
    | _ => none
  | _ => none

/-- Global scan for `/^-\s*\[([ xX])\]\s*(.+)$/gm`, collecting the matches in
order.  `skip` is the number of remaining characters inside the previous
match; `atLS` records whether the current position is a line start. -/
def scanCheckboxes : Nat → Bool → Str → List (Char × Str)
  | _, _, [] => []
  | s + 1, _, c :: t => scanCheckboxes s (c = '\n') t
  | 0, atLS, c :: t =>
    if atLS then
      match matchCheckboxAt (c :: t) with
      | some (ch, txt, rest) =>
        (ch, txt) :: scanCheckboxes (t.length - rest.length) (c = '\n') t
      | none => scanCheckboxes 0 (c = '\n') t
    else scanCheckboxes 0 (c = '\n') t

/-- Model of `extractTodoItems`: locate the TODO section, then collect every
checkbox line in it. -/
def extractTodoItems (content : Str) : List TodoItem :=
  match findTodoSection content with
  | none => []
  | some sec =>
    (scanCheckboxes 0 true sec).map fun p =>
      { text := jsTrim p.2, completed := lowCh p.1 = 'x' }

/-- Error string: missing H1. -/
def errH1 : Str := "Missing product name (H1 header)".data

/-- Error string: missing OBJECTIVE. -/
def errObjective : Str := "Missing OBJECTIVE declaration".data

/-- Error string: missing DONE WHEN. -/
def errDoneWhen : Str := "Missing DONE WHEN criteria".data

/-- Error string: missing TODO section. -/
def errTodo : Str := "Missing TODO section with checkbox items".data

/-- Error string: too few step sections. -/
def errSteps : Str := "Should have at least one step section beyond TODO".data

/-- Error string: missing EXECUTE NOW. -/
def errExecuteNow : Str := "Missing EXECUTE NOW call-to-action".data

/-- Model of `validateInstallMd`: collect all validation errors. -/
def validateInstallMd (content : Str) : List Str :=
  (if hasH1 content then [] else [errH1]) ++
  (if hasObjective content then [] else [errObjective]) ++
  (if hasDoneWhen content then [] else [errDoneWhen]) ++
  (if hasTodo content then [] else [errTodo]) ++
  (if countStepSections content < 2 then [errSteps] else []) ++
  (if hasExecuteNow content then [] else [errExecuteNow])

/-- Model of `parseInstallMd`, restricted to the fields the specification's
claims mention (`raw`, `todoItems`, `isValid`, `validationErrors`); the
remaining extraction fields (`productName`, `description`, `actionPrompt`,
`objective`, `doneWhen`, `steps`) are presentation data referenced by no
claim. -/
structure ParsedInstallMd where
  raw : Str
  todoItems : List TodoItem
  isValid : Bool
  validationErrors : List Str
deriving DecidableEq, Repr

/-- Model of `parseInstallMd`. -/
def parseInstallMd (content : Str) : ParsedInstallMd :=
  let validationErrors := validateInstallMd content
  { raw := content
    todoItems := extractTodoItems content
    isValid := validationErrors.length = 0
    validationErrors := validationErrors }

/-- Model of `isValidInstallMd` (the quick pre-filter). -/
def isValidInstallMd (content : Str) : Bool :=
  hasH1 content && hasObjective content && hasDoneWhen content && hasTodo content

-- ===========================================================================
-- install.md generator (src/lib/install-md-generator.ts)
-- ===========================================================================

/-- A code block of a generator step. -/
structure CodeBlock where
  language : Str
  code : Str
  label : Option Str
deriving DecidableEq, Repr

/-- A generator step (`id` omitted as for `TodoItem`). -/
structure GenStep where
  title : Str
  description : Str
  codeBlocks : List CodeBlock
deriving DecidableEq, Repr

/-- The install.md generator's input data (`InstallMdGeneratorData`). -/
structure GenData where
  productName : Str
  description : Str
  objective : Str
  doneWhen : Str
  todoItems : List TodoItem
  steps : List GenStep
deriving DecidableEq, Repr

/-- Lower-case alphanumeric test, the `[a-z0-9]` class of the slug regexes. -/
def slugAlnum (c : Char) : Bool :=
  (0x61 ≤ c.toNat ∧ c.toNat ≤ 0x7A) ∨ (0x30 ≤ c.toNat ∧ c.toNat ≤ 0x39)

/-- Model of `.replace(/[^a-z0-9]+/g, '-')`: collapse each maximal run of
non-alphanumeric characters into one hyphen (`inRun` records whether the
previous character was part of such a run). -/
def collapseRuns : Bool → Str → Str
  | _, [] => []
  | inRun, c :: t =>
    if slugAlnum c then c :: collapseRuns false t
    else if inRun then collapseRuns true t
    else '-' :: collapseRuns true t

/-- Removal of one leading hyphen (the `^-` alternative of
`.replace(/^-|-$/g, '')`). -/
def stripLeadDash (s : Str) : Str :=
  match s with
  | '-' :: t => t
  | _ => s

/-- Removal of one trailing hyphen (the `-$` alternative). -/
def stripTailDash (s : Str) : Str :=
  match s.reverse with
  | '-' :: t => t.reverse
  | _ => s

/-- Model of `.replace(/^-|-$/g, '')`: remove one leading and one trailing
hyphen (the `g` scan finds at most those two matches). -/
def stripEdgeDashes (s : Str) : Str := stripTailDash (stripLeadDash s)

/-- Fallback H1 slug. -/
def litProductName : Str := "product-name".data

/-- Literal `# ` prefix. -/
def litHashSp : Str := "# ".data

/-- Literal `> ` prefix. -/
def litGtSp : Str := "> ".data

/-- Action-prompt prefix. -/
def litIWantPre : Str := "I want you to install ".data

/-- Action-prompt suffix. -/
def litIWantSuf : Str := " for me. Execute all the steps below autonomously.".data

/-- Action-prompt fallback product name. -/
def litThisSoftware : Str := "this software".data

/-- Literal `OBJECTIVE: ` prefix. -/
def litObjPre : Str := "OBJECTIVE: ".data

/-- Literal `DONE WHEN: ` prefix. -/
def litDWPre : Str := "DONE WHEN: ".data

/-- Literal `## TODO` header line. -/
def litTodoLine : Str := "## TODO".data

/-- Checked checkbox prefix. -/
def litBoxX : Str := "- [x] ".data

/-- Unchecked checkbox prefix. -/
def litBoxO : Str := "- [ ] ".data

/-- Literal `## ` prefix. -/
def litH2Space : Str := "## ".data

/-- Literal colon. -/
def litColon : Str := ":".data

/-- Literal code fence. -/
def litFence : Str := "```".data

/-- Default code-block language. -/
def litBash : Str := "bash".data

/-- EXECUTE NOW line prefix. -/
def litExecPre : Str := "EXECUTE NOW: Complete the above TODO list to achieve: ".data

/-- EXECUTE NOW fallback objective. -/
def litSuccess : Str := "successful installation".data

/-- Literal full stop. -/
def litDot : Str := ".".data

/-- Lines contributed by one generator step. -/
def genStepLines (st : GenStep) : List Str :=
  if jsTrim st.title ≠ [] then
    [litH2Space ++ st.title, []] ++
    (if jsTrim st.description ≠ [] then [st.description, []] else []) ++
    (st.codeBlocks.flatMap fun b =>
      (match b.label with
       | some l => if l ≠ [] then [l ++ litColon, []] else []
       | none => []) ++
      [litFence ++ (if b.language = [] then litBash else b.language), b.code, litFence, []])
  else []

/-- The H1 slug of the generated document
(`productName.toLowerCase().replace(/[^a-z0-9]+/g, '-').replace(/^-|-$/g, '')`). -/
def genSlug (d : GenData) : Str :=
  stripEdgeDashes (collapseRuns false (lowerStr d.productName))

/-- The `lines` array built by `generateInstallMd`, in push order. -/
def genLines (d : GenData) : List Str :=
  [litHashSp ++ (if genSlug d = [] then litProductName else genSlug d), []] ++
  (if d.description ≠ [] then [litGtSp ++ d.description, []] else []) ++
  [litIWantPre ++ (if d.productName = [] then litThisSoftware else d.productName) ++ litIWantSuf, []] ++
  (if d.objective ≠ [] then [litObjPre ++ d.objective, []] else []) ++
  (if d.doneWhen ≠ [] then [litDWPre ++ d.doneWhen, []] else []) ++
  [litTodoLine, []] ++
  (d.todoItems.flatMap fun it =>
    if jsTrim it.text ≠ [] then [(if it.completed then litBoxX else litBoxO) ++ it.text] else []) ++
  [[]] ++
  (d.steps.flatMap genStepLines) ++
  [litExecPre ++ (if d.objective = [] then litSuccess else d.objective) ++ litDot]

/-- Model of `generateInstallMd` (`lines.join('\n').trim() + '\n'`). -/
def generateInstallMd (d : GenData) : Str :=
  jsTrim (joinCh '\n' (genLines d)) ++ ['\n']

-- ===========================================================================
-- llms.txt content validity classifier (discovery module, part_006)
-- ===========================================================================

/-- HTML prefix `<!doctype`. -/
def litDoctype : Str := "<!doctype".data

/-- HTML prefix `<html`. -/
def litHtmlTag : Str := "<html".data

/-- HTML prefix `<head`. -/
def litHeadTag : Str := "<head".data

/-- Markdown signal `#`. -/
def litHash : Str := "#".data

/-- Markdown signal `>`. -/
def litGt : Str := ">".data

/-- Markdown signal `- `. -/
def litDashSp : Str := "- ".data

/-- Markdown signal `* `. -/
def litStarSp : Str := "* ".data

/-- Markdown signal `[`. -/
def litLBrack : Str := "[".data

/-- The HTML-rejection test of `isValidLlmsTxtContent`, applied to
`content.trim().toLowerCase()`. -/
def llmsHtmlReject (trimmed : Str) : Bool :=
  startsW litDoctype trimmed || startsW litHtmlTag trimmed || startsW litHeadTag trimmed

/-- The `hasMarkdownIndicators` disjunction of `isValidLlmsTxtContent`
(tested on the untrimmed content). -/
def llmsMarkdownIndicators (content : Str) : Bool :=
  containsS content litHash || containsS content litGt || containsS content litDashSp ||
  containsS content litStarSp || containsS content litLBrack || containsS content litFence

/-- Model of `isValidLlmsTxtContent`. -/
def isValidLlmsTxtContent (content : Str) : Bool :=
  if content.length < 10 then false
  else if llmsHtmlReject (lowerStr (jsTrim content)) then false
  else llmsMarkdownIndicators content

-- ===========================================================================
-- full/standard classification of a fetched llms.txt (sites verify route,
-- part_001, `checkLlmsTxtUrl`)
-- ===========================================================================

/-- The `type` values of `LlmsTxtInfo`. -/
inductive SiteLlmsType where
  | full
  | standard
deriving DecidableEq, Repr

/-- Markdown signal `### `. -/
def litH3Space : Str := "### ".data

/-- Model of the `isFullLlms` heuristic of `checkLlmsTxtUrl`. -/
def isFullLlms (text : Str) : Bool :=
  containsS text litH2Space || containsS text litH3Space ||
  (50 < (splitCh '\n' text).length) || (5000 < text.length)

/-- The `type` field computed by `checkLlmsTxtUrl`:
`isFullLlms ? 'full' : 'standard'`. -/
def classifyLlmsTxt (text : Str) : SiteLlmsType :=
  if isFullLlms text then SiteLlmsType.full else SiteLlmsType.standard

-- ===========================================================================
-- Content segmentation (src/app/api/extract/route.ts, POST, the
-- `split(/^## /m)` loop)
-- ===========================================================================

/-- A produced document. -/
structure Document where
  filename : Str
  title : Str
  content : Str
  tokens : Nat
deriving DecidableEq, Repr

/-- Model of `estimateTokens` (`Math.ceil(text.length / 4)`). -/
def estimateTokens (text : Str) : Nat := (text.length + 3) / 4

/-- Model of `slugify` from the extract route (lower-case, collapse
non-alphanumeric runs, strip edge hyphens, truncate to 50). -/
def slugify (text : Str) : Str :=
  (stripEdgeDashes (collapseRuns false (lowerStr text))).take 50

/-- Model of `content.split(/^## /m)`: split at every `## ` occurring at a
line start. -/
def splitH2Go : Bool → Str → List Str
  | _, [] => [[]]
  | true, '#' :: '#' :: ' ' :: t => [] :: splitH2Go false t
  | _, c :: t =>
    match splitH2Go (c = '\n') t with
    | [] => [[c]]
    | p :: ps => (c :: p) :: ps

/-- Split a raw llms.txt content on top-level `## ` boundaries. -/
def splitH2 (content : Str) : List Str := splitH2Go true content

/-- Title of the first chunk. -/
def litIntroduction : Str := "Introduction".data

/-- Fallback section-title prefix. -/
def litSection : Str := "Section ".data

/-- Filename extension. -/
def litDotMd : Str := ".md".data

/-- Two newlines, as inserted between the re-prefixed header and the body. -/
def litNlNl : Str := "\n\n".data

/-- `String(n).padStart(2, '0')`. -/
def pad2 (n : Nat) : Str :=
  let s := natStr n
  if s.length < 2 then List.replicate (2 - s.length) '0' ++ s else s

/-- The document built from chunk number `i` (0-based) with trimmed content
`sec`, when `documents.length = docCount` documents were already emitted. -/
def mkSectionDoc (i docCount : Nat) (sec : Str) : Document :=
  let lines := splitCh '\n' sec
  let firstLine := lines.headD []
  let title :=
    if i = 0 then litIntroduction
    else if firstLine ≠ [] then firstLine
    else litSection ++ natStr i
  let scontent :=
    if i = 0 then sec
    else litH2Space ++ firstLine ++ litNlNl ++ jsTrim (joinCh '\n' (lines.drop 1))
  { filename := pad2 (docCount + 1) ++ '-' :: slugify title ++ litDotMd
    title := title
    content := scontent
    tokens := estimateTokens scontent }

/-- The segmentation loop of the extract route: chunk `i` is skipped when its
trimmed text is empty or shorter than 20 characters, and otherwise emitted
via `mkSectionDoc`. -/
def segLoop (i docCount : Nat) : List Str → List Document
  | [] => []
  | s :: rest =>
    let sec := jsTrim s
    if sec = [] ∨ sec.length < 20 then segLoop (i + 1) docCount rest
    else mkSectionDoc i docCount sec :: segLoop (i + 1) (docCount + 1) rest

/-- Model of the extract route's main-content segmentation (the
`split(/^## /m)` loop; the zero-document whole-text fallback and the
linked-file merging that follow it in the route are outside the claims'
scope). -/
def segmentLlmsContent (content : Str) : List Document :=
  segLoop 0 0 (splitH2 content)

-- ===========================================================================
-- Intelligent URL discovery system (part_006): data model and environment
-- ===========================================================================

/-- A fetched HTTP response, as far as the discovery core inspects it
(`response.ok` and the body text). -/
structure FetchResponse where
  ok : Bool
  body : Str
deriving DecidableEq, Repr

/-- The fields of a WHATWG `URL` object consulted by `parseUrl`. -/
structure RawUrl where
  protocol : Str
  hostname : Str
deriving DecidableEq, Repr

/-- A `DiscoveredUrl` candidate (lower priority = tried first). -/
structure Cand where
  url : Str
  priority : Nat
  source : Str
deriving DecidableEq, Repr

/-- Result of one of the abstracted network probes: wall time spent, the
fetches issued, and the candidates contributed. -/
structure ProbeOut where
  time : Nat
  trace : List Str
  urls : List Cand
deriving DecidableEq, Repr

/-- Result of the platform-fingerprint probe. -/
structure PlatformOut where
  time : Nat
  trace : List Str
  platform : Option Str
  urls : List Cand
deriving DecidableEq, Repr

/-- Result of the git-hosting probe. -/
structure RepoOut where
  time : Nat
  trace : List Str
  repoUrl : Option Str
  urls : List Cand
deriving DecidableEq, Repr

/-- The environment a discovery run executes in: URL parsing (`new URL`,
returning `none` where the constructor throws), the network (`fetch`,
returning `none` where the request throws or times out, plus the wall time
each request costs), and the bodies of the five scraping probes whose
internals (regex scraping of fetched HTML/robots/sitemap text) no claim
references — each of those is translated only down to its
`if (!parsed) return empty` guard, with the remainder abstracted as an
oracle. -/
structure DiscoveryEnv where
  rawParse : Str → Option RawUrl
  fetch : Str → Option FetchResponse
  fetchTime : Str → Nat
  robotsRest : Str → ProbeOut
  homepageRest : Str → ProbeOut
  platformRest : Str → PlatformOut
  githubRest : Str → RepoOut
  openapiRest : Str → ProbeOut
  sitemapProbe : Str → ProbeOut

/-- The record produced by `parseUrl`. -/
structure ParsedUrl where
  protocol : Str
  hostname : Str
  baseDomain : Str
  tld : Str
  fullDomain : Str
  hasSubdomain : Bool
  subdomain : Option Str
deriving DecidableEq, Repr

/-- Literal `http://`. -/
def litHttp : Str := "http://".data

/-- Literal `https://`. -/
def litHttps : Str := "https://".data

/-- Literal `www`. -/
def litWww : Str := "www".data

/-- Literal `www.`. -/
def litWwwDot : Str := "www.".data

/-- Literal `com` (fallback TLD). -/
def litCom : Str := "com".data

/-- Literal `//`. -/
def litSlashSlash : Str := "//".data

/-- The compound TLD table of `parseUrl`. -/
def compoundTlds : List Str :=
  [r"co.uk".data, r"com.au".data, r"co.nz".data, r"co.jp".data,
   r"com.br".data, r"co.in".data, r"org.uk".data, r"net.au".data]

/-- Model of `parseUrl`: trim, prefix `https://` when no scheme is present,
parse via the environment's URL parser, then split the hostname into domain
parts with the compound-TLD special case. -/
def parseUrl (env : DiscoveryEnv) (inputUrl : Str) : Option ParsedUrl :=
  let t := jsTrim inputUrl
  let normalizedUrl := if startsW litHttp t || startsW litHttps t then t else litHttps ++ t
  match env.rawParse normalizedUrl with
  | none => none
  | some u =>
    let hostname := u.hostname
    let parts := splitCh '.' hostname
    let lastTwo := joinCh '.' (parts.drop (parts.length - 2))
    let bts : Str × Str × Option Str :=
      if lastTwo ∈ compoundTlds ∧ 3 ≤ parts.length then
        (parts.getD (parts.length - 3) [], lastTwo,
         if 3 < parts.length then some (joinCh '.' (parts.take (parts.length - 3))) else none)
      else if 2 ≤ parts.length then
        (parts.getD (parts.length - 2) [], parts.getD (parts.length - 1) [],
         if 2 < parts.length then some (joinCh '.' (parts.take (parts.length - 2))) else none)
      else (parts.getD 0 [], litCom, none)
    let baseDomain := bts.1
    let tld := bts.2.1
    let subdomain := bts.2.2
    let fullDomain := baseDomain ++ '.' :: tld
    some { protocol := u.protocol, hostname := hostname, baseDomain := baseDomain,
           tld := tld, fullDomain := fullDomain,
           hasSubdomain := subdomain ≠ none ∧ subdomain ≠ some litWww,
           subdomain := if subdomain = some litWww then none else subdomain }

-- ===========================================================================
-- Discovery: core check functions
-- ===========================================================================

/-- The `type` values of discovery check results. -/
inductive LlmsType where
  | llmsFull
  | llmsStandard
deriving DecidableEq, Repr

/-- An `LlmsTxtCheckResult`. -/
structure LlmsTxtCheckResult where
  found : Bool
  url : Option Str
  ctype : Option LlmsType
  content : Option Str
deriving DecidableEq, Repr

/-- The not-found check result. -/
def notFoundCheck : LlmsTxtCheckResult :=
  { found := false, url := none, ctype := none, content := none }

/-- State threaded through a discovery run: elapsed wall time, the
`scannedUrls` accumulator, and the full trace of fetched URLs. -/
structure DState where
  elapsed : Nat
  scanned : List Str
  trace : List Str
deriving DecidableEq, Repr

/-- The initial state. -/
def initDState : DState := { elapsed := 0, scanned := [], trace := [] }

/-- Model of `fetchWithTimeout`: consult the environment, record the URL in
the trace and account for the request's wall time. -/
def fetchW (env : DiscoveryEnv) (url : Str) (st : DState) : Option FetchResponse × DState :=
  (env.fetch url,
   { st with elapsed := st.elapsed + env.fetchTime url, trace := st.trace ++ [url] })

/-- Model of `.replace(/\/$/, '')`: strip one trailing slash. -/
def stripTrailingSlash (s : Str) : Str :=
  match s.reverse with
  | '/' :: t => t.reverse
  | _ => s

/-- Literal `llms-full.txt`. -/
def litLlmsFullTxt : Str := "llms-full.txt".data

/-- Literal `llms.txt`. -/
def litLlmsTxt : Str := "llms.txt".data

/-- Literal `llms-full` (substring test used for well-known paths). -/
def litLlmsFull : Str := "llms-full".data

/-- The `filesToTry` list of `checkForLlmsTxt`. -/
def filesToTry : List Str := [litLlmsFullTxt, litLlmsTxt]

/-- The file loop of `checkForLlmsTxt`. -/
def checkFilesLoop (env : DiscoveryEnv) (normalizedBase : Str) :
    List Str → DState → LlmsTxtCheckResult × DState
  | [], st => (notFoundCheck, st)
  | f :: fs, st =>
    let testUrl := normalizedBase ++ '/' :: f
    let fr := fetchW env testUrl st
    match fr.1 with
    | some r =>
      if r.ok ∧ isValidLlmsTxtContent r.body then
        ({ found := true, url := some testUrl,
           ctype := some (if f = litLlmsFullTxt then LlmsType.llmsFull else LlmsType.llmsStandard),
           content := some (r.body.take 500) }, fr.2)
      else checkFilesLoop env normalizedBase fs fr.2
    | none => checkFilesLoop env normalizedBase fs fr.2

/-- Model of `checkForLlmsTxt`. -/
def checkForLlmsTxt (env : DiscoveryEnv) (baseUrl : Str) (st : DState) :
    LlmsTxtCheckResult × DState :=
  checkFilesLoop env (stripTrailingSlash baseUrl) filesToTry st

/-- The `CONFIG.wellKnownPaths` table. -/
def wellKnownPaths : List Str :=
  [r"/.well-known/llms.txt".data, r"/.well-known/llms-full.txt".data,
   r"/llms.txt".data, r"/llms-full.txt".data]

/-- Model of `Array.from(new Set(xs))`: deduplicate preserving first
occurrences. -/
def dedupPreserveAux (seen : List Str) : List Str → List Str
  | [] => []
  | x :: xs => if x ∈ seen then dedupPreserveAux seen xs else x :: dedupPreserveAux (x :: seen) xs

/-- Deduplicate a list of strings preserving first occurrences. -/
def dedupPreserve (l : List Str) : List Str := dedupPreserveAux [] l

/-- The path loop of `checkWellKnownPaths` for one base URL. -/
def wkPathsLoop (env : DiscoveryEnv) (base : Str) :
    List Str → DState → LlmsTxtCheckResult × DState
  | [], st => (notFoundCheck, st)
  | p :: ps, st =>
    let testUrl := base ++ p
    let fr := fetchW env testUrl st
    match fr.1 with
    | some r =>
      if r.ok ∧ isValidLlmsTxtContent r.body then
        ({ found := true, url := some testUrl,
           ctype := some (if containsS p litLlmsFull then LlmsType.llmsFull else LlmsType.llmsStandard),
           content := none }, fr.2)
      else wkPathsLoop env base ps fr.2
    | none => wkPathsLoop env base ps fr.2

/-- The base loop of `checkWellKnownPaths`. -/
def wkBasesLoop (env : DiscoveryEnv) :
    List Str → DState → LlmsTxtCheckResult × DState
  | [], st => (notFoundCheck, st)
  | b :: bs, st =>
    let pr := wkPathsLoop env b wellKnownPaths st
    if pr.1.found then pr else wkBasesLoop env bs pr.2

/-- Model of `checkWellKnownPaths`: the well-known llms.txt paths are probed
against the hostname, the full domain and the `www.` variant. -/
def checkWellKnownPaths (env : DiscoveryEnv) (baseUrl : Str) (st : DState) :
    LlmsTxtCheckResult × DState :=
  match parseUrl env baseUrl with
  | none => (notFoundCheck, st)
  | some p =>
    let baseUrls :=
      [p.protocol ++ litSlashSlash ++ p.hostname,
       p.protocol ++ litSlashSlash ++ p.fullDomain,
       p.protocol ++ litSlashSlash ++ litWwwDot ++ p.fullDomain]
    wkBasesLoop env (dedupPreserve baseUrls) st

-- ===========================================================================
-- Discovery: candidate URL generator (strategy 1)
-- ===========================================================================

/-- The `CONFIG.subdomains` table (ordered by likelihood). -/
def configSubdomains : List Str :=
  [r"docs".data, r"api-docs".data, r"documentation".data, r"developers".data,
   r"developer".data, r"dev".data, r"api".data, r"reference".data,
   r"help".data, r"support".data, r"learn".data, r"guide".data,
   r"guides".data, r"wiki".data, r"kb".data, r"knowledge".data,
   r"manual".data, r"handbook".data, r"resources".data, r"devdocs".data,
   r"apidocs".data, r"dev-docs".data, r"api-reference".data, r"portal".data,
   r"devportal".data, r"dev-portal".data, r"platform".data, r"openapi".data,
   r"swagger".data, r"spec".data, r"specs".data]

/-- The `CONFIG.docPaths` table (ordered by likelihood). -/
def configDocPaths : List Str :=
  [r"/docs".data, r"/documentation".data, r"/api".data, r"/api-docs".data,
   r"/developer".data, r"/developers".data, r"/reference".data, r"/help".data,
   r"/guide".data, r"/guides".data, r"/learn".data, r"/manual".data,
   r"/handbook".data, r"/resources".data, r"/wiki".data, r"/kb".data,
   r"/knowledge-base".data, r"/support".data, r"/getting-started".data,
   r"/quickstart".data, r"/tutorials".data, r"/examples".data,
   r"/api-reference".data, r"/openapi".data, r"/swagger".data]

/-- Source tag `input` (fallback candidate for unparsable input). -/
def litInput : Str := "input".data

/-- Source tag `user-provided-subdomain`. -/
def litUserSub : Str := "user-provided-subdomain".data

/-- Source tag `subdomain-pattern`. -/
def litSubPattern : Str := "subdomain-pattern".data

/-- Source tag `main-domain`. -/
def litMainDomain : Str := "main-domain".data

/-- Source tag `www-domain`. -/
def litWwwDomain : Str := "www-domain".data

/-- Source tag `path-pattern`. -/
def litPathPattern : Str := "path-pattern".data

/-- The `CONFIG.subdomains.forEach((sub, index) => ...)` loop: one candidate
per subdomain, priority `10 + index`. -/
def subEntries (protocol fullDomain : Str) : Nat → List Str → List Cand
  | _, [] => []
  | i, s :: rest =>
    { url := protocol ++ litSlashSlash ++ s ++ '.' :: fullDomain,
      priority := 10 + i, source := litSubPattern } ::
    subEntries protocol fullDomain (i + 1) rest

/-- The `CONFIG.docPaths.forEach((path, index) => ...)` loop: two candidates
per path (bare and `www.` domain), priorities `50 + index` and `51 + index`. -/
def pathEntries (protocol fullDomain : Str) : Nat → List Str → List Cand
  | _, [] => []
  | i, pth :: rest =>
    { url := protocol ++ litSlashSlash ++ fullDomain ++ pth,
      priority := 50 + i, source := litPathPattern } ::
    { url := protocol ++ litSlashSlash ++ litWwwDot ++ fullDomain ++ pth,
      priority := 51 + i, source := litPathPattern } ::
    pathEntries protocol fullDomain (i + 1) rest

/-- The raw candidate list that `generateUrlPatterns` builds (in push order)
before deduplication and ranking. -/
def genPatternList (p : ParsedUrl) : List Cand :=
  (if p.hasSubdomain ∧ p.subdomain.getD [] ≠ [] then
     [{ url := p.protocol ++ litSlashSlash ++ p.hostname, priority := 0, source := litUserSub }]
   else []) ++
  subEntries p.protocol p.fullDomain 0 configSubdomains ++
  [{ url := p.protocol ++ litSlashSlash ++ p.fullDomain, priority := 5, source := litMainDomain },
   { url := p.protocol ++ litSlashSlash ++ litWwwDot ++ p.fullDomain, priority := 6, source := litWwwDomain }] ++
  pathEntries p.protocol p.fullDomain 0 configDocPaths

/-- Deduplicate candidates by a key, keeping the first occurrence of each key
(models the `seen`-`Set` filter idiom). -/
def dedupByKey (key : Cand → Str) (seen : List Str) : List Cand → List Cand
  | [] => []
  | c :: rest =>
    if key c ∈ seen then dedupByKey key seen rest
    else c :: dedupByKey key (key c :: seen) rest

/-- Stable insertion of a candidate into a priority-sorted list (the element
goes before the first strictly greater priority, preserving the original
order of equal priorities). -/
def insertByPriority (c : Cand) : List Cand → List Cand
  | [] => [c]
  | d :: ds => if d.priority < c.priority then d :: insertByPriority c ds else c :: d :: ds

/-- Stable sort by ascending priority, modelling the ECMAScript stable
`Array.prototype.sort((a, b) => a.priority - b.priority)` (any stable sort
computes the same list). -/
def sortByPriority (l : List Cand) : List Cand := l.foldr insertByPriority []

/-- The deduplicate-and-rank step of `generateUrlPatterns` (deduplication by
exact URL, first seen wins, then a stable ascending sort by priority). -/
def genPatternsFor (p : ParsedUrl) : List Cand :=
  sortByPriority (dedupByKey (fun c => c.url) [] (genPatternList p))

/-- Model of `generateUrlPatterns`: on unparsable input, fall back to the raw
input as a single priority-0 candidate; otherwise build, deduplicate and
sort the pattern candidates. -/
def generateUrlPatterns (env : DiscoveryEnv) (inputUrl : Str) : List Cand :=
  match parseUrl env inputUrl with
  | none => [{ url := inputUrl, priority := 0, source := litInput }]
  | some p => genPatternsFor p

-- ===========================================================================
-- Discovery: remaining probe strategies (guards translated, bodies abstract)
-- ===========================================================================

/-- An empty probe result. -/
def emptyProbeOut : ProbeOut := { time := 0, trace := [], urls := [] }

/-- An empty platform-probe result. -/
def emptyPlatformOut : PlatformOut := { time := 0, trace := [], platform := none, urls := [] }

/-- An empty git-probe result. -/
def emptyRepoOut : RepoOut := { time := 0, trace := [], repoUrl := none, urls := [] }

/-- Model of `parseRobotsTxt`: `if (!parsed) return urls` (empty), otherwise
the probe's network behaviour, abstracted as an oracle. -/
def parseRobotsTxt (env : DiscoveryEnv) (inputUrl : Str) : ProbeOut :=
  match parseUrl env inputUrl with
  | none => emptyProbeOut
  | some _ => env.robotsRest inputUrl

/-- Model of `scrapeHomepageLinks` (same shape as `parseRobotsTxt`). -/
def scrapeHomepageLinks (env : DiscoveryEnv) (inputUrl : Str) : ProbeOut :=
  match parseUrl env inputUrl with
  | none => emptyProbeOut
  | some _ => env.homepageRest inputUrl

/-- Model of `detectDocPlatform`. -/
def detectDocPlatform (env : DiscoveryEnv) (inputUrl : Str) : PlatformOut :=
  match parseUrl env inputUrl with
  | none => emptyPlatformOut
  | some _ => env.platformRest inputUrl

/-- Model of `checkGitRepository`. -/
def checkGitRepository (env : DiscoveryEnv) (inputUrl : Str) : RepoOut :=
  match parseUrl env inputUrl with
  | none => emptyRepoOut
  | some _ => env.githubRest inputUrl

/-- Model of `checkOpenApiEndpoints`. -/
def checkOpenApiEndpoints (env : DiscoveryEnv) (inputUrl : Str) : ProbeOut :=
  match parseUrl env inputUrl with
  | none => emptyProbeOut
  | some _ => env.openapiRest inputUrl

-- ===========================================================================
-- Discovery: orchestrator
-- ===========================================================================

/-- Strategy name `wellknown`. -/
def stWellknown : Str := "wellknown".data

/-- Strategy name `patterns`. -/
def stPatterns : Str := "patterns".data

/-- Strategy name `platform`. -/
def stPlatform : Str := "platform".data

/-- Strategy name `homepage`. -/
def stHomepage : Str := "homepage".data

/-- Strategy name `robots`. -/
def stRobots : Str := "robots".data

/-- Strategy name `sitemap`. -/
def stSitemap : Str := "sitemap".data

/-- Strategy name `github`. -/
def stGithub : Str := "github".data

/-- Strategy name `openapi`. -/
def stOpenapi : Str := "openapi".data

/-- The default strategy list of `discoverLlmsTxt`. -/
def defaultStrategies : List Str :=
  [stWellknown, stPatterns, stPlatform, stHomepage, stRobots, stSitemap, stGithub, stOpenapi]

/-- The options of `discoverLlmsTxt` (`onProgress` is a pure observer
callback and is omitted). -/
structure DiscoveryOpts where
  timeoutMs : Nat
  strategies : List Str
deriving DecidableEq, Repr

/-- The default options (`CONFIG.defaultTimeoutMs = 30000`). -/
def defaultOpts : DiscoveryOpts := { timeoutMs := 30000, strategies := defaultStrategies }

/-- Discovery method tag of the fast path. -/
def litWellKnownPath : Str := "well-known-path".data

/-- Source tag `robots-sitemap`. -/
def litRobotsSitemap : Str := "robots-sitemap".data

/-- Literal `/sitemap.xml`. -/
def litSitemapXml : Str := "/sitemap.xml".data

/-- Substring `user-provided` of the confidence rule. -/
def litUserProvided : Str := "user-provided".data

/-- Substring `well-known` of the confidence rule. -/
def litWellKnown : Str := "well-known".data

/-- Substring `platform` of the confidence rule. -/
def litPlatformSub : Str := "platform".data

/-- Substring `github` of the confidence rule. -/
def litGithubSub : Str := "github".data

/-- Confidence levels. -/
inductive Confidence where
  | high
  | medium
  | low
deriving DecidableEq, Repr

/-- The confidence rule of the batch-verification phase. -/
def confidenceFor (source : Str) : Confidence :=
  if containsS source litUserProvided || containsS source litWellKnown then Confidence.high
  else if containsS source litPlatformSub || containsS source litGithubSub then Confidence.high
  else Confidence.medium

/-- The `additionalInfo` record. -/
structure AdditionalInfo where
  platform : Option Str
  sitemapFound : Option Bool
  robotsTxtFound : Option Bool
  githubRepo : Option Str
deriving DecidableEq, Repr

/-- The empty `additionalInfo`. -/
def emptyAddInfo : AdditionalInfo :=
  { platform := none, sitemapFound := none, robotsTxtFound := none, githubRepo := none }

/-- A `DiscoveryResult`. -/
structure DiscoveryResult where
  found : Bool
  url : Option Str
  llmsTxtUrl : Option Str
  ctype : Option LlmsType
  scannedUrls : List Str
  timeElapsed : Nat
  discoveryMethod : Option Str
  confidence : Option Confidence
  additionalInfo : Option AdditionalInfo
deriving DecidableEq, Repr

/-- Literal `/llms.txt` suffix. -/
def litSlashLlmsTxt : Str := "/llms.txt".data

/-- Literal `/llms-full.txt` suffix. -/
def litSlashLlmsFullTxt : Str := "/llms-full.txt".data

/-- Model of `.replace(/\/llms(-full)?\.txt$/, '')`. -/
def stripLlmsSuffix (u : Str) : Str :=
  if endsW litSlashLlmsFullTxt u then u.take (u.length - 14)
  else if endsW litSlashLlmsTxt u then u.take (u.length - 9)
  else u

/-- The aggregate of the phase-2 parallel gather. -/
structure GatherOut where
  time : Nat
  trace : List Str
  urls : List Cand
  info : AdditionalInfo
deriving DecidableEq, Repr

/-- Phase 2 of the orchestrator: run every enabled strategy and merge the
candidates in the promise order of the source (patterns, robots, homepage,
platform, github, openapi).  The strategies run concurrently and are joined
with `Promise.allSettled`, so the phase's wall time is the maximum of the
strategies' times and the trace shown is one linearization of the concurrent
requests. -/
def gatherPhase (env : DiscoveryEnv) (inputUrl : Str) (strategies : List Str) : GatherOut :=
  let patternsUrls := if stPatterns ∈ strategies then generateUrlPatterns env inputUrl else []
  let robotsOut := if stRobots ∈ strategies then parseRobotsTxt env inputUrl else emptyProbeOut
  let homepageOut := if stHomepage ∈ strategies then scrapeHomepageLinks env inputUrl else emptyProbeOut
  let platformOut := if stPlatform ∈ strategies then detectDocPlatform env inputUrl else emptyPlatformOut
  let githubOut := if stGithub ∈ strategies then checkGitRepository env inputUrl else emptyRepoOut
  let openapiOut := if stOpenapi ∈ strategies then checkOpenApiEndpoints env inputUrl else emptyProbeOut
  { time := max robotsOut.time (max homepageOut.time (max platformOut.time (max githubOut.time openapiOut.time)))
    trace := robotsOut.trace ++ homepageOut.trace ++ platformOut.trace ++ githubOut.trace ++ openapiOut.trace
    urls := patternsUrls ++ robotsOut.urls ++ homepageOut.urls ++ platformOut.urls ++ githubOut.urls ++ openapiOut.urls
    info := { platform := platformOut.platform
              sitemapFound := none
              robotsTxtFound := if robotsOut.urls ≠ [] then some true else none
              githubRepo := githubOut.repoUrl } }

/-- Phase 3 of the orchestrator: parse up to three sitemaps, stopping when
the time budget is exceeded; returns the new state, the extra candidates and
whether any sitemap contributed. -/
def sitemapLoop (env : DiscoveryEnv) (timeoutMs : Nat) :
    List Str → DState → List Cand → Bool → DState × List Cand × Bool
  | [], st, acc, fnd => (st, acc, fnd)
  | u :: us, st, acc, fnd =>
    if timeoutMs < st.elapsed then (st, acc, fnd)
    else
      let out := env.sitemapProbe u
      let st' : DState := { st with elapsed := st.elapsed + out.time, trace := st.trace ++ out.trace }
      if out.urls ≠ [] then sitemapLoop env timeoutMs us st' (acc ++ out.urls) true
      else sitemapLoop env timeoutMs us st' acc fnd

/-- The normalization used by the orchestrator's deduplication:
`u.url.replace(/\/$/, '').toLowerCase()`. -/
def normalizeUrlKey (u : Str) : Str := lowerStr (stripTrailingSlash u)

/-- Phase-4 preparation: deduplicate on the normalized URL (first seen wins),
sort ascending by priority, cap at `CONFIG.maxUrlsToScan = 100`. -/
def dedupAndRank (cands : List Cand) : List Cand :=
  (sortByPriority (dedupByKey (fun c => normalizeUrlKey c.url) [] cands)).take 100

/-- Chunking of the ranked candidates into batches of `CONFIG.batchSize = 8`
(fuel-based so that it reduces in the kernel). -/
def chunksOfAux (k : Nat) : Nat → List Cand → List (List Cand)
  | 0, _ => []
  | _, [] => []
  | fuel + 1, l => l.take k :: chunksOfAux k fuel (l.drop k)

/-- Batches of eight candidates. -/
def chunksOf8 (l : List Cand) : List (List Cand) := chunksOfAux 8 l.length l

/-- One settled element of a verification batch. -/
structure BatchItem where
  url : Str
  source : Str
  result : LlmsTxtCheckResult
deriving DecidableEq, Repr

/-- Run one batch: each candidate is pushed to `scannedUrls` and checked via
`checkForLlmsTxt`.  The batch runs concurrently (`Promise.allSettled`), so
its wall time is the maximum of the members' times and each member starts
from the batch's start time; the trace is one linearization. -/
def runBatchItems (env : DiscoveryEnv) : List Cand → List BatchItem × Nat × List Str
  | [] => ([], 0, [])
  | c :: cs =>
    let pr := checkForLlmsTxt env c.url initDState
    let rest := runBatchItems env cs
    ({ url := c.url, source := c.source, result := pr.1 } :: rest.1,
     max pr.2.elapsed rest.2.1, pr.2.trace ++ rest.2.2)

/-- First found result of a settled batch (scanned in order). -/
def firstFound : List BatchItem → Option BatchItem
  | [] => none
  | b :: bs => if b.result.found then some b else firstFound bs

/-- Phase 4 of the orchestrator: process the ranked candidates in batches,
stopping on the first confirmed hit or when the time budget is exceeded. -/
def batchLoop (env : DiscoveryEnv) (timeoutMs : Nat) :
    List (List Cand) → DState → Option BatchItem × DState
  | [], st => (none, st)
  | batch :: rest, st =>
    if timeoutMs < st.elapsed then (none, st)
    else
      let out := runBatchItems env batch
      let st' : DState :=
        { elapsed := st.elapsed + out.2.1,
          scanned := st.scanned ++ batch.map (fun c => c.url),
          trace := st.trace ++ out.2.2 }
      match firstFound out.1 with
      | some b => (some b, st')
      | none => batchLoop env timeoutMs rest st'

/-- Phases 2-4 of `discoverLlmsTxt` (after the well-known fast path), ending
in either a confirmed hit or the normal not-found result. -/
def discoverRest (env : DiscoveryEnv) (inputUrl : Str) (opts : DiscoveryOpts)
    (st : DState) : DiscoveryResult × DState :=
  let g := gatherPhase env inputUrl opts.strategies
  let st2 : DState := { st with elapsed := st.elapsed + g.time, trace := st.trace ++ g.trace }
  let all := g.urls
  let ph3 : DState × List Cand × Bool :=
    if stSitemap ∈ opts.strategies ∧ ¬ (opts.timeoutMs < st2.elapsed) then
      let fromRobots := (all.filter (fun c => c.source = litRobotsSitemap)).map (fun c => c.url)
      let defaults :=
        match parseUrl env inputUrl with
        | some p =>
          [p.protocol ++ litSlashSlash ++ p.hostname ++ litSitemapXml,
           p.protocol ++ litSlashSlash ++ p.fullDomain ++ litSitemapXml]
        | none => []
      sitemapLoop env opts.timeoutMs ((dedupPreserve (fromRobots ++ defaults)).take 3) st2 [] false
    else (st2, [], false)
  let st3 := ph3.1
  let info := if ph3.2.2 then { g.info with sitemapFound := some true } else g.info
  let uniqueUrls := dedupAndRank (all ++ ph3.2.1)
  let fin := batchLoop env opts.timeoutMs (chunksOf8 uniqueUrls) st3
  match fin.1 with
  | some b =>
    ({ found := true, url := some b.url, llmsTxtUrl := b.result.url, ctype := b.result.ctype,
       scannedUrls := fin.2.scanned, timeElapsed := fin.2.elapsed,
       discoveryMethod := some b.source, confidence := some (confidenceFor b.source),
       additionalInfo := some info }, fin.2)
  | none =>
    ({ found := false, url := none, llmsTxtUrl := none, ctype := none,
       scannedUrls := fin.2.scanned, timeElapsed := fin.2.elapsed,
       discoveryMethod := none, confidence := none, additionalInfo := some info }, fin.2)

/-- Model of `discoverLlmsTxt`: phase 1 runs the well-known-path probe alone
and returns immediately on a hit; otherwise phases 2-4 follow.  Nothing in
the model throws (network failures are `none` responses), so the source's
outer catch branch is unreachable. -/
def discoverLlmsTxt (env : DiscoveryEnv) (inputUrl : Str) (opts : DiscoveryOpts) :
    DiscoveryResult × DState :=
  let st0 := initDState
  if stWellknown ∈ opts.strategies ∧ ¬ (opts.timeoutMs < st0.elapsed) then
    let pr := checkWellKnownPaths env inputUrl st0
    match pr.1.found, pr.1.url with
    | true, some u =>
      ({ found := true, url := some (stripLlmsSuffix u), llmsTxtUrl := some u,
         ctype := pr.1.ctype, scannedUrls := pr.2.scanned ++ [u],
         timeElapsed := pr.2.elapsed, discoveryMethod := some litWellKnownPath,
         confidence := some Confidence.high, additionalInfo := none },
       { pr.2 with scanned := pr.2.scanned ++ [u] })
    | _, _ => discoverRest env inputUrl opts pr.2
  else discoverRest env inputUrl opts st0

-- ===========================================================================
-- Specification-side predicates (phrased from the claims' wording, for the
-- refinement-style comparisons) and concrete inputs for the theorems
-- ===========================================================================

/-- Claim C6's markdown-signal disjunction, phrased from the specification:
the text contains `#`, `>`, a list marker `- ` or `* `, `[`, or a fence. -/
def specMarkdownSignal (content : Str) : Bool :=
  containsS content litHash || containsS content litGt || containsS content litDashSp ||
  containsS content litStarSp || containsS content litLBrack || containsS content litFence

/-- Claim C6's HTML-start test, phrased from the specification: after
trimming, the text starts case-insensitively with `<!doctype`, `<html` or
`<head`. -/
def specHtmlStart (content : Str) : Bool :=
  startsW litDoctype (lowerStr (jsTrim content)) || startsW litHtmlTag (lowerStr (jsTrim content)) ||
  startsW litHeadTag (lowerStr (jsTrim content))

/-- Checked checkbox prefix with a capital X. -/
def litBoxXU : Str := "- [X] ".data

/-- Claim C5's notion of a checklist line: a line formatted
`- [ ] text`, `- [x] text` or `- [X] text` with non-empty text. -/
def specChecklistLine (l : Str) : Bool :=
  (startsW litBoxO l || startsW litBoxX l || startsW litBoxXU l) && 6 < l.length

/-- Number of checklist lines contained in a document (claim C5's `N`). -/
def countChecklistLines (content : Str) : Nat :=
  ((splitCh '\n' content).filter specChecklistLine).length

/-- Whether a checklist line's checkbox is checked (`[x]` or `[X]`). -/
def specChecklistChecked (l : Str) : Bool :=
  startsW litBoxX l || startsW litBoxXU l

/-- The checked flags of a document's checklist lines, in order. -/
def checklistFlags (content : Str) : List Bool :=
  ((splitCh '\n' content).filter specChecklistLine).map specChecklistChecked

/-- Fixed checklist item text of the claim C5 document family. -/
def litTask : Str := "task".data

/-- One generated checklist line (with trailing newline). -/
def todoLineFor (b : Bool) : Str :=
  (if b then litBoxX else litBoxO) ++ litTask ++ ['\n']

/-- Document part before the TODO header of the claim C5 family. -/
def c5PreA : Str := "# tool\nOBJECTIVE: obj\nDONE WHEN: crit\n".data

/-- The TODO header line of the claim C5 family. -/
def c5Hdr : Str := "## TODO\n".data

/-- Document part after the checklist lines of the claim C5 family. -/
def c5Suf : Str :=
  "## Step One\nWords for the first step\n## Step Two\nWords for the second step\nEXECUTE NOW: run the list".data

/-- A valid install.md document whose TODO section consists of one checklist
line per flag (checked iff the flag is true). -/
def mkTodoDoc (flags : List Bool) : Str :=
  c5PreA ++ c5Hdr ++ flags.flatMap todoLineFor ++ c5Suf

/-- Claim C5's counterexample document: valid install.md with one checklist
line inside the TODO section and a second checklist line inside a step
section. -/
def c5CexDoc : Str :=
  "# tool\nOBJECTIVE: a\nDONE WHEN: b\n## TODO\n- [ ] first item here\n## Install step\n- [x] stray checklist item\nsome words\n## Another step\nwords\nEXECUTE NOW: go".data

/-- Claim C4's witness document: H1, OBJECTIVE, DONE WHEN and `## TODO`
present, no EXECUTE NOW. -/
def c4Doc : Str := "# tool\nOBJECTIVE: a\nDONE WHEN: b\n## TODO\n- [ ] t".data

/-- Claim C10's witness document: passes the full validator. -/
def c10Doc : Str :=
  "# tool\nOBJECTIVE: a\nDONE WHEN: b\n## TODO\n- [ ] t\n## Step One\nwords\n## Step Two\nwords\nEXECUTE NOW: go".data

/-- Model of `createDefaultGeneratorData` (empty fields, one empty todo item,
one empty step). -/
def defaultGenData : GenData :=
  { productName := [], description := [], objective := [], doneWhen := []
    todoItems := [{ text := [], completed := false }]
    steps := [{ title := [], description := [], codeBlocks := [] }] }

/-- Concrete generator data for the claim C3 witness. -/
def c3WitnessData : GenData :=
  { productName := "My Tool".data, description := "desc".data
    objective := "obj".data, doneWhen := "crit".data
    todoItems := [{ text := "do it".data, completed := false }]
    steps := [{ title := "Install".data, description := "run this".data
                codeBlocks := [{ language := [], code := "npm i".data, label := none }] }] }

/-- Claim C6's counterexample content: non-empty, not HTML, markdown signal
present, but shorter than ten characters. -/
def c6CexDoc : Str := "# a".data

/-- One 26-character line of the claim C7 sample document. -/
def c7Line : Str := "abcdefghijklmnopqrstuvwxyz".data

/-- Claim C7's sample document: 30 lines, exactly 800 characters, no `##`. -/
def c7Sample : Str :=
  joinCh '\n' (List.replicate 29 c7Line ++ [c7Line.take 17])

/-- Claim C8's counterexample content: the chunk before the first `## `
header is non-empty but trims to fewer than 20 characters, so it is not
emitted. -/
def c8CexDoc : Str :=
  "# Tiny\n## Section One\nplenty of words to pass the twenty char threshold".data

/-- Spec-side title of an emitted chunk (claim C8): chunk 0 is titled
`Introduction`, any other chunk is titled by its first line after trimming. -/
def chunkTitle (i : Nat) (sec : Str) : Str :=
  if i = 0 then litIntroduction else (splitCh '\n' sec).headD []

/-- Spec-side stored content of an emitted chunk (claim C8). -/
def chunkContent (i : Nat) (sec : Str) : Str :=
  if i = 0 then sec
  else litH2Space ++ (splitCh '\n' sec).headD [] ++ litNlNl ++
       jsTrim (joinCh '\n' ((splitCh '\n' sec).drop 1))

/-- Well-formedness of parsed URL components as produced by a WHATWG `URL`
for an `http`/`https` input: the protocol, hostname and reconstructed full
domain are lower-case, and the hostname and full domain are non-empty and do
not end in a slash (hostnames cannot contain `/`). -/
def wfParsed (p : ParsedUrl) : Prop :=
  lowerStr p.protocol = p.protocol ∧ lowerStr p.hostname = p.hostname ∧
  lowerStr p.fullDomain = p.fullDomain ∧
  p.hostname ≠ [] ∧ p.hostname.getLast? ≠ some '/' ∧
  p.fullDomain ≠ [] ∧ p.fullDomain.getLast? ≠ some '/'

/-- Concrete parsed URL (of `https://docs.example.com`) used by the claim C2
witness. -/
def c2Parsed : ParsedUrl :=
  { protocol := "https:".data, hostname := "docs.example.com".data
    baseDomain := "example".data, tld := "com".data
    fullDomain := "example.com".data, hasSubdomain := true
    subdomain := some ("docs".data) }

/-- Claim C2's counterexample candidates: two candidates sharing a normalized
URL where the first seen has the higher priority value. -/
def c2CexA : Cand :=
  { url := "https://example.com/docs".data, priority := 50, source := "path-pattern".data }

/-- Second claim C2 counterexample candidate (robots-allow, lower priority,
later in the merged list). -/
def c2CexB : Cand :=
  { url := "https://example.com/docs/".data, priority := 30, source := "robots-allow".data }

/-- A probe-less environment in which every URL parse and fetch fails (used
by the claim C9 theorems). -/
def envFailAll : DiscoveryEnv :=
  { rawParse := fun _ => none
    fetch := fun _ => none
    fetchTime := fun _ => 0
    robotsRest := fun _ => emptyProbeOut
    homepageRest := fun _ => emptyProbeOut
    platformRest := fun _ => emptyPlatformOut
    githubRest := fun _ => emptyRepoOut
    openapiRest := fun _ => emptyProbeOut
    sitemapProbe := fun _ => emptyProbeOut }

/-- Claim C9's malformed input: `new URL('http://')` throws (empty host), and
no `https://` prefix is added since the string already starts with a scheme. -/
def c9Input : Str := "http://".data

/-- Second malformed input, for the claim C9 witness. -/
def c9Input2 : Str := "https://".data

/-- Body served at the well-known path in the claim C1 witness environment. -/
def c1Body : Str :=
  "# Title\n\nSome docs here with enough length to pass the heuristic.".data

/-- Claim C1's witness environment: `https://example.com` parses, and only
its `/.well-known/llms.txt` responds with a valid body. -/
def envC1 : DiscoveryEnv :=
  { rawParse := fun u =>
      if u = "https://example.com".data then
        some { protocol := "https:".data, hostname := "example.com".data }
      else none
    fetch := fun u =>
      if u = "https://example.com/.well-known/llms.txt".data then
        some { ok := true, body := c1Body }
      else none
    fetchTime := fun _ => 0
    robotsRest := fun _ => emptyProbeOut
    homepageRest := fun _ => emptyProbeOut
    platformRest := fun _ => emptyPlatformOut
    githubRest := fun _ => emptyRepoOut
    openapiRest := fun _ => emptyProbeOut
    sitemapProbe := fun _ => emptyProbeOut }

/-- Claim C1's witness input URL. -/
def c1Input : Str := "https://example.com".data

/-- Expected title of the single document of the claim C8 counterexample. -/
def c8SecTitle : Str := "Section One".data

/-- First line of the claim C5 document family. -/
def c5L1 : Str := "# tool".data

/-- Second line of the claim C5 document family. -/
def c5L2 : Str := "OBJECTIVE: obj".data

/-- Third line of the claim C5 document family. -/
def c5L3 : Str := "DONE WHEN: crit".data

/-- Fourth line of the claim C5 document family. -/
def c5L4 : Str := "## TODO".data

/-- Tail of a checked generated checklist line. -/
def c5TailX : Str := " [x] task\n".data

/-- Tail of an unchecked generated checklist line. -/
def c5TailO : Str := " [ ] task\n".data

-- ===========================================================================
-- Supporting lemmas: strings and scanners
-- ===========================================================================

/-- `startsW` decides list-prefix. -/
theorem startsW_iff (p s : Str) : startsW p s = true ↔ p <+: s := by
  induction p generalizing s with
  | nil => simp [startsW]
  | cons a p ih =>
    cases s with
    | nil => simp [startsW]
    | cons c t =>
      simp only [startsW, Bool.and_eq_true, decide_eq_true_eq, ih, List.cons_prefix_cons]

/-- `containsS` decides list-infix. -/
theorem containsS_iff (hay needle : Str) : containsS hay needle = true ↔ needle <:+: hay := by
  induction hay with
  | nil =>
    constructor
    · intro h
      rw [containsS] at h
      split at h
      · next hp => exact ((startsW_iff _ _).1 hp).isInfix
      · cases h
    · intro h
      have hn : needle = [] := by
        have := List.eq_nil_of_sublist_nil h.sublist
        exact this
      subst hn
      rw [containsS]
      simp [startsW]
  | cons c t ih =>
    constructor
    · intro h
      rw [containsS] at h
      split at h
      · next hp => exact ((startsW_iff _ _).1 hp).isInfix
      · exact List.infix_cons (ih.1 h)
    · intro h
      rw [containsS]
      split
      · rfl
      · next hp =>
        apply ih.2
        rcases h with ⟨s, u, hsu⟩
        cases s with
        | nil =>
          exact absurd ((startsW_iff needle (c :: t)).2 ⟨u, by simpa using hsu⟩) (by simp [hp])
        | cons x s' =>
          exact ⟨s', u, by simpa using congrArg List.tail hsu⟩

/-- An infix of the haystack makes `containsS` true. -/
theorem containsS_of_infix {hay needle : Str} (h : needle <:+: hay) :
    containsS hay needle = true := (containsS_iff hay needle).2 h

/-- `lowerStr` distributes over append. -/
theorem lowerStr_append (a b : Str) : lowerStr (a ++ b) = lowerStr a ++ lowerStr b := by
  simp [lowerStr]

/-- The join of a non-empty tail steps through the separator. -/
theorem joinCh_cons_of_ne (sep : Char) (l : Str) (ls : List Str) (h : ls ≠ []) :
    joinCh sep (l :: ls) = l ++ sep :: joinCh sep ls := by
  cases ls with
  | nil => exact absurd rfl h
  | cons a as => simp [joinCh]

/-- `joinCh` of a list with a fixed element contains that element. -/
theorem joinCh_infix (sep : Char) (xs : List Str) (l : Str) (ys : List Str) :
    l <:+: joinCh sep (xs ++ l :: ys) := by
  induction xs with
  | nil =>
    cases ys with
    | nil => simp [joinCh]
    | cons y ys' =>
      refine ⟨[], sep :: joinCh sep (y :: ys'), ?_⟩
      simp [joinCh]
  | cons x xs ih =>
    rw [List.cons_append, joinCh_cons_of_ne sep x (xs ++ l :: ys) (by simp)]
    exact ih.trans ⟨x ++ [sep], [], by simp⟩

/-- The join of `xs ++ [l]` ends in `l`. -/
theorem joinCh_ends (sep : Char) (xs : List Str) (l : Str) :
    ∃ pre, joinCh sep (xs ++ [l]) = pre ++ l := by
  induction xs with
  | nil => exact ⟨[], by simp [joinCh]⟩
  | cons x xs ih =>
    rcases ih with ⟨pre, hpre⟩
    refine ⟨x ++ sep :: pre, ?_⟩
    rw [List.cons_append, joinCh_cons_of_ne sep x (xs ++ [l]) (by simp), hpre]
    simp

/-- Dropping whitespace from a list headed by a non-whitespace character is
the identity. -/
theorem dropWhile_jsWs_cons_of_not {c : Char} (t : Str) (h : jsWs c = false) :
    (c :: t).dropWhile jsWs = c :: t := by
  simp [List.dropWhile, h]

/-- `jsTrim` is the identity on a list whose head and last element are not
whitespace. -/
theorem jsTrim_eq_self {c d : Char} {t : Str} (hc : jsWs c = false)
    (hd : (c :: t).getLast? = some d) (hdw : jsWs d = false) :
    jsTrim (c :: t) = c :: t := by
  unfold jsTrim
  rw [dropWhile_jsWs_cons_of_not t hc]
  rcases hrev : (c :: t).reverse with _ | ⟨d', rest⟩
  · exact absurd hrev (by simp)
  · have hd' : d' = d := by
      have hh := List.head?_reverse (c :: t)
      rw [hrev, hd] at hh
      simpa using hh
    subst hd'
    rw [dropWhile_jsWs_cons_of_not rest hdw]
    rw [← hrev, List.reverse_reverse]

-- ===========================================================================
-- Claim C6: llms.txt content validity classifier
-- ===========================================================================

/-- C6 (counterexample): the claim says every non-empty, non-HTML text with a
markdown signal is accepted, but `# a` (3 characters) satisfies all of that
and is rejected, because the code additionally requires at least 10
characters. -/
theorem C6_counterexample :
    isValidLlmsTxtContent c6CexDoc = false ∧ c6CexDoc ≠ [] ∧
    specHtmlStart c6CexDoc = false ∧ specMarkdownSignal c6CexDoc = true := by
  decide

/-- C6 (amended): the llms.txt content validity classifier accepts a fetched
text exactly when it is at least 10 characters long (not merely non-empty),
does not start case-insensitively, after trimming, with `<!doctype`, `<html`
or `<head`, and contains at least one markdown signal. -/
theorem C6_content_validity (c : Str) :
    isValidLlmsTxtContent c = true ↔
      (10 ≤ c.length ∧ specHtmlStart c = false ∧ specMarkdownSignal c = true) := by
  have hhs : specHtmlStart c = llmsHtmlReject (lowerStr (jsTrim c)) := by
    simp [specHtmlStart, llmsHtmlReject]
  have hms : specMarkdownSignal c = llmsMarkdownIndicators c := by
    simp [specMarkdownSignal, llmsMarkdownIndicators]
  rw [hhs, hms]
  unfold isValidLlmsTxtContent
  split
  · next hlt =>
    constructor
    · intro h; cases h
    · rintro ⟨h10, -, -⟩; omega
  · next hlt =>
    split
    · next hrej =>
      constructor
      · intro h; cases h
      · rintro ⟨-, hh, -⟩
        rw [hrej] at hh
        cases hh
    · next hrej =>
      constructor
      · intro h
        refine ⟨by omega, ?_, h⟩
        simpa using hrej
      · rintro ⟨-, -, hs⟩
        exact hs

-- ===========================================================================
-- Claim C7: full vs standard classification heuristic
-- ===========================================================================

/-- C7: a fetched llms.txt is classified `full` exactly when it contains
`## ` or `### `, or has more than 50 lines, or is longer than 5000; and the
concrete 30-line, 800-character, `##`-free sample classifies as `standard`. -/
theorem C7_full_vs_standard :
    (∀ text : Str, classifyLlmsTxt text = SiteLlmsType.full ↔
       (containsS text litH2Space = true ∨ containsS text litH3Space = true ∨
        50 < (splitCh '\n' text).length ∨ 5000 < text.length)) ∧
    (classifyLlmsTxt c7Sample = SiteLlmsType.standard ∧
     (splitCh '\n' c7Sample).length = 30 ∧ c7Sample.length = 800 ∧
     containsS c7Sample litH2Space = false ∧ containsS c7Sample litH3Space = false) := by
  constructor
  · intro text
    unfold classifyLlmsTxt isFullLlms
    split
    · next h =>
      simp only [Bool.or_eq_true, decide_eq_true_eq] at h
      exact iff_of_true rfl (by tauto)
    · next h =>
      constructor
      · intro hc
        exact absurd hc (by simp)
      · intro hor
        exfalso
        apply h
        simp only [Bool.or_eq_true, decide_eq_true_eq]
        tauto
  · decide

-- ===========================================================================
-- Claim C4: quick/full validator asymmetry
-- ===========================================================================

/-- C4: a document with an H1 line, an `OBJECTIVE:` label, a `DONE WHEN:`
label and a `## TODO` header but no `EXECUTE NOW:` marker passes the quick
check `isValidInstallMd` but fails `parseInstallMd(...).isValid`. -/
theorem C4_quick_full_asymmetry (c : Str) (h1 : hasH1 c = true)
    (h2 : hasObjective c = true) (h3 : hasDoneWhen c = true)
    (h4 : hasTodo c = true) (h5 : hasExecuteNow c = false) :
    isValidInstallMd c = true ∧ (parseInstallMd c).isValid = false := by
  refine ⟨by simp [isValidInstallMd, h1, h2, h3, h4], ?_⟩
  have hne : validateInstallMd c ≠ [] := by
    unfold validateInstallMd
    simp only [h1, h2, h3, h4, h5]
    split <;> simp
  simp only [parseInstallMd, decide_eq_false_iff_not]
  intro hlen
  exact hne (List.length_eq_zero.mp hlen)

/-- C4 (witness): the concrete document `c4Doc` realizes the asymmetry. -/
theorem C4_witness :
    (hasH1 c4Doc = true ∧ hasObjective c4Doc = true ∧ hasDoneWhen c4Doc = true ∧
     hasTodo c4Doc = true ∧ hasExecuteNow c4Doc = false) ∧
    (isValidInstallMd c4Doc = true ∧ (parseInstallMd c4Doc).isValid = false) :=
  ⟨by decide, C4_quick_full_asymmetry c4Doc (by decide) (by decide) (by decide)
    (by decide) (by decide)⟩

-- ===========================================================================
-- Claim C10: full validation implies the quick pre-filter
-- ===========================================================================

/-- C10: every document accepted by the full validator is accepted by the
quick pre-filter, because the quick check's four marker tests all appear
among the full validator's checks. -/
theorem C10_valid_implies_quick (c : Str) (h : (parseInstallMd c).isValid = true) :
    isValidInstallMd c = true := by
  have hv : validateInstallMd c = [] := by
    simp only [parseInstallMd, decide_eq_true_eq] at h
    exact List.length_eq_zero.mp h
  unfold validateInstallMd at hv
  by_cases h1 : hasH1 c <;> by_cases h2 : hasObjective c <;>
    by_cases h3 : hasDoneWhen c <;> by_cases h4 : hasTodo c <;>
    simp_all [isValidInstallMd]

/-- C10 (witness): the concrete fully-valid document `c10Doc` passes the
quick pre-filter. -/
theorem C10_witness :
    ((parseInstallMd c10Doc).isValid = true) ∧ isValidInstallMd c10Doc = true :=
  ⟨by decide, C10_valid_implies_quick c10Doc (by decide)⟩

-- ===========================================================================
-- Claims C3, C5, C8: closed counterexamples
-- ===========================================================================

/-- C3 (counterexample): the default generator data (empty objective and
done-when) produces a document that the quick validator rejects, so the
round-trip property does not hold for every generator data value. -/
theorem C3_counterexample :
    isValidInstallMd (generateInstallMd defaultGenData) = false := by
  decide

/-- C5 (counterexample): a valid install.md containing two checklist lines
(one inside the TODO section and a stray one inside a step section) yields
only one todo item, so `todoItems.length` is not the document's total
checklist-line count. -/
theorem C5_counterexample :
    (parseInstallMd c5CexDoc).isValid = true ∧
    countChecklistLines c5CexDoc = 2 ∧
    (parseInstallMd c5CexDoc).todoItems.length = 1 ∧
    checklistFlags c5CexDoc = [false, true] := by
  decide

/-- C8 (counterexample): for content whose first chunk is non-empty but
trims to fewer than 20 characters, no `Introduction` document is emitted;
the first chunk is silently skipped. -/
theorem C8_counterexample :
    jsTrim ((splitH2 c8CexDoc).headD []) ≠ [] ∧
    (segmentLlmsContent c8CexDoc).map (fun d => d.title) = [c8SecTitle] ∧
    (∀ d ∈ segmentLlmsContent c8CexDoc, d.title ≠ litIntroduction) := by
  decide

-- ===========================================================================
-- Claim C3: generator round-trip
-- ===========================================================================

/-- Any element of a list is an infix of the list's join. -/
theorem joinCh_infix_of_mem (sep : Char) {x : Str} {ls : List Str} (h : x ∈ ls) :
    x <:+: joinCh sep ls := by
  rcases List.append_of_mem h with ⟨s, t, rfl⟩
  exact joinCh_infix sep s x t

/-- Every character of a collapsed slug is alphanumeric or a hyphen. -/
theorem collapseRuns_chars (b : Bool) (s : Str) :
    ∀ c ∈ collapseRuns b s, slugAlnum c = true ∨ c = '-' := by
  induction s generalizing b with
  | nil => simp [collapseRuns]
  | cons a t ih =>
    intro c hc
    rw [collapseRuns] at hc
    split at hc
    · rcases List.mem_cons.mp hc with rfl | hm
      · left; assumption
      · exact ih false c hm
    · split at hc
      · exact ih true c hc
      · rcases List.mem_cons.mp hc with rfl | hm
        · right; rfl
        · exact ih true c hm

/-- `stripLeadDash` only removes characters. -/
theorem stripLeadDash_subset (s : Str) : ∀ c ∈ stripLeadDash s, c ∈ s := by
  intro c hc
  unfold stripLeadDash at hc
  split at hc
  · exact List.mem_cons_of_mem _ hc
  · exact hc

/-- `stripTailDash` only removes characters. -/
theorem stripTailDash_subset (s : Str) : ∀ c ∈ stripTailDash s, c ∈ s := by
  intro c hc
  unfold stripTailDash at hc
  split at hc
  · next t heq =>
    have h2 : c ∈ s.reverse := by
      rw [heq]
      exact List.mem_cons_of_mem _ (by simpa using hc)
    simpa using h2
  · exact hc

/-- `stripEdgeDashes` only removes characters. -/
theorem stripEdgeDashes_subset (s : Str) : ∀ c ∈ stripEdgeDashes s, c ∈ s :=
  fun c hc => stripLeadDash_subset s c (stripTailDash_subset _ c hc)

/-- Slug characters are not whitespace. -/
theorem slug_char_not_ws {c : Char} (h : slugAlnum c = true ∨ c = '-') : jsWs c = false := by
  rcases h with h | rfl
  · simp only [slugAlnum, decide_eq_true_eq] at h
    simp only [jsWs, decide_eq_false_iff_not]
    omega
  · decide

/-- The head of the generated slug (or its fallback) is not whitespace. -/
theorem genSlug_head_not_ws (d : GenData) :
    ∀ c t, (if genSlug d = [] then litProductName else genSlug d) = c :: t → jsWs c = false := by
  intro c t h
  split at h
  · rw [show litProductName = 'p' :: "roduct-name".data from rfl] at h
    cases h
    decide
  · apply slug_char_not_ws
    apply collapseRuns_chars false (lowerStr d.productName)
    apply stripEdgeDashes_subset
    have h' : stripEdgeDashes (collapseRuns false (lowerStr d.productName)) = c :: t := h
    rw [h']
    exact List.mem_cons_self c t

/-- `matchTodoAt` fires at the literal `## TODO` line whatever follows. -/
theorem matchTodoAt_todoLine (z : Str) : matchTodoAt (litTodoLine ++ z) = true := by
  rw [show litTodoLine = '#' :: '#' :: ' ' :: 'T' :: 'O' :: 'D' :: 'O' :: [] from rfl]
  show matchTodoAt ('#' :: '#' :: (' ' :: 'T' :: 'O' :: 'D' :: 'O' :: z)) = true
  rw [matchTodoAt]
  rw [List.dropWhile_cons_of_pos (by decide), List.dropWhile_cons_of_neg (by decide)]
  rw [show litTodo = 't' :: 'o' :: 'd' :: 'o' :: [] from rfl]
  simp [startsWCI, lowCh]

/-- A scan for `/##\s*TODO/i` succeeds whenever some suffix matches. -/
theorem hasTodoScan_append (pre suf : Str) (h : matchTodoAt suf = true) :
    hasTodoScan (pre ++ suf) = true := by
  induction pre with
  | nil =>
    cases suf with
    | nil => cases h
    | cons c t =>
      rw [List.nil_append, hasTodoScan, h]
      rfl
  | cons c t ih =>
    cases hct : t ++ suf with
    | nil =>
      exfalso
      rcases List.append_eq_nil.mp hct with ⟨-, rfl⟩
      cases h
    | cons a as =>
      rw [List.cons_append, hasTodoScan, hct, ← hct, ih]
      simp

/-- The map of an infix is an infix of the map. -/
theorem infix_map_lower {a b : Str} (h : a <:+: b) : lowerStr a <:+: lowerStr b := by
  rcases h with ⟨s, t, rfl⟩
  exact ⟨lowerStr s, lowerStr t, by simp [lowerStr]⟩

/-- C3 (amended): for every generator data value with non-empty objective
and done-when fields, the generated install.md passes the quick validator
`isValidInstallMd`.  (With either field empty the generator omits the
corresponding labelled line, which is what the counterexample exploits.) -/
theorem C3_roundtrip_amended (d : GenData) (hobj : d.objective ≠ []) (hdw : d.doneWhen ≠ []) :
    isValidInstallMd (generateInstallMd d) = true := by
  obtain ⟨sc, st, hslug⟩ :
      ∃ sc st, (if genSlug d = [] then litProductName else genSlug d) = sc :: st := by
    split
    · exact ⟨'p', "roduct-name".data, rfl⟩
    · next hne =>
      cases hgs : genSlug d with
      | nil => exact absurd hgs hne
      | cons a as => exact ⟨a, as, rfl⟩
  have hscw : jsWs sc = false := genSlug_head_not_ws d sc st hslug
  obtain ⟨tl, hgl, htl⟩ :
      ∃ tl, genLines d = (litHashSp ++ (if genSlug d = [] then litProductName else genSlug d)) :: tl ∧
        tl ≠ [] := by
    refine ⟨_, rfl, ?_⟩
    simp
  have hJ : joinCh '\n' (genLines d) =
      (litHashSp ++ (if genSlug d = [] then litProductName else genSlug d)) ++
      '\n' :: joinCh '\n' tl := by
    rw [hgl, joinCh_cons_of_ne _ _ _ htl]
  rw [hslug] at hJ
  have hJ2 : joinCh '\n' (genLines d) =
      '#' :: ' ' :: ((sc :: st) ++ '\n' :: joinCh '\n' tl) := hJ
  -- the join ends with the EXECUTE NOW line, whose last character is `.`
  obtain ⟨ini, hini⟩ : ∃ ini, genLines d =
      ini ++ [litExecPre ++ (if d.objective = [] then litSuccess else d.objective) ++ litDot] := by
    refine ⟨?_, ?_⟩
    · exact [litHashSp ++ (if genSlug d = [] then litProductName else genSlug d), []] ++
        (if d.description ≠ [] then [litGtSp ++ d.description, []] else []) ++
        [litIWantPre ++ (if d.productName = [] then litThisSoftware else d.productName) ++ litIWantSuf, []] ++
        (if d.objective ≠ [] then [litObjPre ++ d.objective, []] else []) ++
        (if d.doneWhen ≠ [] then [litDWPre ++ d.doneWhen, []] else []) ++
        [litTodoLine, []] ++
        (d.todoItems.flatMap fun it =>
          if jsTrim it.text ≠ [] then [(if it.completed then litBoxX else litBoxO) ++ it.text] else []) ++
        [[]] ++
        (d.steps.flatMap genStepLines)
    · simp only [genLines, List.append_assoc]
  have hlast : (joinCh '\n' (genLines d)).getLast? = some '.' := by
    obtain ⟨pre, hpre⟩ := joinCh_ends '\n' ini
      (litExecPre ++ (if d.objective = [] then litSuccess else d.objective) ++ litDot)
    rw [hini, hpre]
    rw [show litExecPre ++ (if d.objective = [] then litSuccess else d.objective) ++ litDot =
        (litExecPre ++ (if d.objective = [] then litSuccess else d.objective)) ++ ['.'] from by
      simp [litDot, List.append_assoc]]
    rw [← List.append_assoc]
    rw [List.getLast?_append_of_ne_nil _ (by simp)]
    rfl
  have htrim : jsTrim (joinCh '\n' (genLines d)) = joinCh '\n' (genLines d) := by
    rw [hJ2]
    rw [hJ2] at hlast
    exact jsTrim_eq_self (by decide) hlast (by decide)
  have hcontent : generateInstallMd d =
      ('#' :: ' ' :: ((sc :: st) ++ '\n' :: joinCh '\n' tl)) ++ ['\n'] := by
    rw [generateInstallMd, htrim, hJ2]
  -- marker 1: the H1 test fires at position 0
  have hH1 : hasH1 (generateInstallMd d) = true := by
    rw [hcontent]
    show hasH1Scan true ('#' :: ' ' :: ((sc :: st) ++ '\n' :: joinCh '\n' tl) ++ ['\n']) = true
    simp only [hasH1Scan, Bool.true_and, Bool.or_eq_true]
    left
    show matchH1At ('#' :: ' ' :: ((sc :: st) ++ '\n' :: joinCh '\n' tl ++ ['\n'])) = true
    rw [matchH1At]
    simp only [List.dropWhile, show jsWs ' ' = true from by decide, hscw]
    simp
  -- markers 2 and 3: the labelled lines survive into the joined document
  have hinfty : ∀ x ∈ genLines d, x <:+: generateInstallMd d := by
    intro x hx
    rw [generateInstallMd, htrim]
    exact (joinCh_infix_of_mem '\n' hx).trans ⟨[], ['\n'], by simp⟩
  have hObj : hasObjective (generateInstallMd d) = true := by
    apply containsS_of_infix
    have hm : (litObjPre ++ d.objective) ∈ genLines d := by
      simp [genLines, hobj]
    have h1 : litObjective <+: lowerStr (litObjPre ++ d.objective) := by
      rw [lowerStr_append, show lowerStr litObjPre = litObjective ++ [' '] from by decide]
      exact ⟨[' '] ++ lowerStr d.objective, by simp⟩
    exact h1.isInfix.trans (infix_map_lower (hinfty _ hm))
  have hDW : hasDoneWhen (generateInstallMd d) = true := by
    apply containsS_of_infix
    have hm : (litDWPre ++ d.doneWhen) ∈ genLines d := by
      simp [genLines, hdw]
    have h1 : litDoneWhen <+: lowerStr (litDWPre ++ d.doneWhen) := by
      rw [lowerStr_append, show lowerStr litDWPre = litDoneWhen ++ [' '] from by decide]
      exact ⟨[' '] ++ lowerStr d.doneWhen, by simp⟩
    exact h1.isInfix.trans (infix_map_lower (hinfty _ hm))
  -- marker 4: the `## TODO` line matches the TODO regex
  have hTodo : hasTodo (generateInstallMd d) = true := by
    have hm : litTodoLine ∈ genLines d := by simp [genLines]
    rcases hinfty _ hm with ⟨s, t, hst⟩
    show hasTodoScan (generateInstallMd d) = true
    rw [← hst, List.append_assoc]
    exact hasTodoScan_append s _ (matchTodoAt_todoLine t)
  simp [isValidInstallMd, hH1, hObj, hDW, hTodo]

/-- C3 (witness): concrete generator data with non-empty objective and
done-when generates a document accepted by the quick validator. -/
theorem C3_witness :
    c3WitnessData.objective ≠ [] ∧ c3WitnessData.doneWhen ≠ [] ∧
    isValidInstallMd (generateInstallMd c3WitnessData) = true :=
  ⟨by decide, by decide, C3_roundtrip_amended c3WitnessData (by decide) (by decide)⟩

-- ===========================================================================
-- Claim C8: segmentation of llms.txt content
-- ===========================================================================

/-- The head of a `dropWhile` result fails the predicate. -/
theorem dropWhile_head_not (p : Char → Bool) (l : Str) :
    ∀ c t, l.dropWhile p = c :: t → p c = false := by
  induction l with
  | nil => intro c t h; cases h
  | cons a l ih =>
    intro c t h
    rw [List.dropWhile] at h
    split at h
    · exact ih c t h
    · cases h
      simpa using by assumption

/-- The head of a non-empty `jsTrim` result is not whitespace. -/
theorem jsTrim_head_not_ws (s : Str) : ∀ c t, jsTrim s = c :: t → jsWs c = false := by
  intro c t h
  have hr : jsTrim s = (s.dropWhile jsWs).rdropWhile jsWs := rfl
  rw [hr] at h
  have hpre : (s.dropWhile jsWs).rdropWhile jsWs <+: s.dropWhile jsWs :=
    List.rdropWhile_prefix _ _
  rw [h] at hpre
  rcases hpre with ⟨u, hu⟩
  exact dropWhile_head_not jsWs s c (t ++ u) (by rw [← hu] ; simp)

/-- `splitCh` never returns the empty list of pieces. -/
theorem splitCh_ne_nil (sep : Char) (l : Str) : splitCh sep l ≠ [] := by
  cases l with
  | nil => simp [splitCh]
  | cons c t =>
    rw [splitCh]
    split
    · simp
    · split <;> simp

/-- Splitting a list headed by a non-separator yields a non-empty first
piece starting with that character. -/
theorem splitCh_head_ne (sep c : Char) (t : Str) (h : c ≠ sep) :
    ∃ p ps, splitCh sep (c :: t) = (c :: p) :: ps := by
  rw [splitCh]
  cases hs : splitCh sep t with
  | nil => exact absurd hs (splitCh_ne_nil sep t)
  | cons s ss =>
    refine ⟨s, ss, ?_⟩
    simp [h]

/-- The generalized segmentation-loop characterization: titles and contents
of the emitted documents are exactly those of the chunks whose trimmed text
is at least 20 characters long, in order. -/
theorem segLoop_spec (ls : List Str) : ∀ i n,
    (segLoop i n ls).map (fun d => (d.title, d.content)) =
      ((ls.enumFrom i).filter (fun p => 20 ≤ (jsTrim p.2).length)).map
        (fun p => (chunkTitle p.1 (jsTrim p.2), chunkContent p.1 (jsTrim p.2))) := by
  induction ls with
  | nil => intro i n; simp [segLoop]
  | cons s rest ih =>
    intro i n
    rw [segLoop]
    by_cases h : jsTrim s = [] ∨ (jsTrim s).length < 20
    · rw [if_pos h]
      have hfilt : ¬ (20 ≤ (jsTrim s).length) := by
        rcases h with h | h
        · simp [h]
        · omega
      simp only [List.enumFrom, List.filter_cons, decide_eq_true_eq]
      rw [if_neg hfilt]
      exact ih (i + 1) n
    · rw [if_neg h]
      push_neg at h
      have h20 : 20 ≤ (jsTrim s).length := h.2
      have hfl : (splitCh '\n' (jsTrim s)).headD [] ≠ [] := by
        cases hc : jsTrim s with
        | nil => exact absurd hc h.1
        | cons c t =>
          have hcw : jsWs c = false := jsTrim_head_not_ws s c t hc
          have hcn : c ≠ '\n' := by
            intro hh
            rw [hh] at hcw
            cases hcw
          rcases splitCh_head_ne '\n' c t hcn with ⟨p, ps, hp⟩
          rw [hp]
          simp
      simp only [List.map_cons, List.enumFrom, List.filter_cons, decide_eq_true_eq]
      rw [if_pos h20]
      rw [List.map_cons]
      congr 1
      · dsimp only [mkSectionDoc, chunkTitle, chunkContent]
        by_cases hi : i = 0
        · simp [hi]
        · simp only [if_neg hi]
          simp [hi]
          intro hc
          exact absurd hc (by simpa using hfl)
      · exact ih (i + 1) (n + 1)

/-- C8 (amended): when segmenting raw llms.txt content on `## ` boundaries,
a chunk is emitted exactly when its trimmed text is at least 20 characters
long — in particular a trivial first chunk is skipped rather than emitted —
and each emitted chunk is titled `Introduction` for chunk 0 and by its first
line otherwise, with the stored content re-prefixed by `## ` for every chunk
but the first. -/
theorem C8_segmentation_amended (content : Str) :
    (segmentLlmsContent content).map (fun d => (d.title, d.content)) =
      (((splitH2 content).enumFrom 0).filter (fun p => 20 ≤ (jsTrim p.2).length)).map
        (fun p => (chunkTitle p.1 (jsTrim p.2), chunkContent p.1 (jsTrim p.2))) :=
  segLoop_spec (splitH2 content) 0 0

-- ===========================================================================
-- Claim C5: todo-item extraction on the document family `mkTodoDoc`
-- ===========================================================================

/-- An infix of `b` is an infix of `a ++ b`. -/
theorem infix_append_left {x b : Str} (a : Str) (h : x <:+: b) : x <:+: a ++ b := by
  rcases h with ⟨s, t, rfl⟩
  exact ⟨a ++ s, t, by simp⟩

/-- The TODO-section regex captures from just after `## TODO\n` in the
family documents. -/
theorem findTodo_mkTodoDoc (flags : List Bool) :
    findTodoSection (mkTodoDoc flags) =
      some (takeUntilBoundary (flags.flatMap todoLineFor ++ c5Suf)) := by
  cases flags with
  | nil => rfl
  | cons f fs => cases f <;> rfl

/-- Capture of a one-line TODO block: the line without its newline. -/
theorem capture_single (b : Bool) :
    takeUntilBoundary ((b :: []).flatMap todoLineFor ++ c5Suf) =
      (if b then litBoxX else litBoxO) ++ litTask := by
  cases b <;> rfl

/-- Capture steps over one checklist line when more follow. -/
theorem capture_step (b f : Bool) (fs : List Bool) :
    takeUntilBoundary ((b :: f :: fs).flatMap todoLineFor ++ c5Suf) =
      todoLineFor b ++ takeUntilBoundary ((f :: fs).flatMap todoLineFor ++ c5Suf) := by
  cases b <;> cases f <;> rfl

/-- The checkbox scanner consumes one generated checklist line per step. -/
theorem scanCB_step (b : Bool) (R : Str) :
    scanCheckboxes 0 true (todoLineFor b ++ R) =
      ((if b then 'x' else ' '), litTask) :: scanCheckboxes 0 true R := by
  cases b
  · have h9 : (c5TailO ++ R).length - (('\n' :: R) : Str).length = 9 := by simp [c5TailO]
    calc scanCheckboxes 0 true (todoLineFor false ++ R)
        = (' ', litTask) ::
            scanCheckboxes ((c5TailO ++ R).length - (('\n' :: R) : Str).length) false
              (c5TailO ++ R) := rfl
      _ = (' ', litTask) :: scanCheckboxes 9 false (c5TailO ++ R) := by rw [h9]
      _ = (' ', litTask) :: scanCheckboxes 0 true R := rfl
  · have h9 : (c5TailX ++ R).length - (('\n' :: R) : Str).length = 9 := by simp [c5TailX]
    calc scanCheckboxes 0 true (todoLineFor true ++ R)
        = ('x', litTask) ::
            scanCheckboxes ((c5TailX ++ R).length - (('\n' :: R) : Str).length) false
              (c5TailX ++ R) := rfl
      _ = ('x', litTask) :: scanCheckboxes 9 false (c5TailX ++ R) := by rw [h9]
      _ = ('x', litTask) :: scanCheckboxes 0 true R := rfl

/-- The checkbox scanner extracts exactly the generated checklist lines of a
non-empty family document. -/
theorem scanCB_flags : ∀ fs : List Bool, fs ≠ [] →
    scanCheckboxes 0 true (takeUntilBoundary (fs.flatMap todoLineFor ++ c5Suf)) =
      fs.map (fun b => ((if b then 'x' else ' '), litTask)) := by
  intro fs
  induction fs with
  | nil => intro h; exact absurd rfl h
  | cons b fs ih =>
    intro _
    cases fs with
    | nil =>
      rw [capture_single b]
      cases b <;> rfl
    | cons f fs' =>
      rw [capture_step b f fs', scanCB_step b _, ih (by simp)]
      rfl

/-- Extraction of the todo items of a family document. -/
theorem extractTodo_mkTodoDoc (flags : List Bool) :
    extractTodoItems (mkTodoDoc flags) =
      flags.map (fun b => { text := litTask, completed := b : TodoItem }) := by
  cases flags with
  | nil => decide
  | cons b fs =>
    rw [extractTodoItems.eq_def, findTodo_mkTodoDoc]
    dsimp only
    rw [scanCB_flags (b :: fs) (by simp), List.map_map]
    apply List.map_congr_left
    intro x _
    cases x <;> rfl

/-- Splitting a newline-terminated line off a string. -/
theorem splitCh_append_sep (sep : Char) (L rest : Str) (h : sep ∉ L) :
    splitCh sep (L ++ sep :: rest) = L :: splitCh sep rest := by
  induction L with
  | nil =>
    rcases hs : splitCh sep rest with _ | ⟨s, ss⟩
    · exact absurd hs (splitCh_ne_nil sep rest)
    · rw [List.nil_append, splitCh, hs]
      simp
  | cons c t ih =>
    have hc : c ≠ sep := fun hh => h (hh ▸ List.mem_cons_self c t)
    rw [List.cons_append, splitCh, ih (fun hm => h (List.mem_cons_of_mem c hm))]
    simp [hc]

/-- Checklist-line count of the block below the TODO header. -/
theorem ccAux : ∀ fs : List Bool,
    ((splitCh '\n' (fs.flatMap todoLineFor ++ c5Suf)).filter specChecklistLine).length =
      fs.length := by
  intro fs
  induction fs with
  | nil => decide
  | cons b fs ih =>
    cases b
    · have hL : ((false :: fs).flatMap todoLineFor ++ c5Suf : Str) =
          (litBoxO ++ litTask) ++ '\n' :: (fs.flatMap todoLineFor ++ c5Suf) := rfl
      rw [hL, splitCh_append_sep '\n' _ _ (by decide)]
      rw [List.filter_cons_of_pos (by decide)]
      simpa using ih
    · have hL : ((true :: fs).flatMap todoLineFor ++ c5Suf : Str) =
          (litBoxX ++ litTask) ++ '\n' :: (fs.flatMap todoLineFor ++ c5Suf) := rfl
      rw [hL, splitCh_append_sep '\n' _ _ (by decide)]
      rw [List.filter_cons_of_pos (by decide)]
      simpa using ih

/-- Checklist-line count of a whole family document. -/
theorem countChecklist_mkTodoDoc (flags : List Bool) :
    countChecklistLines (mkTodoDoc flags) = flags.length := by
  have h0 : mkTodoDoc flags =
      c5L1 ++ '\n' :: (c5L2 ++ '\n' :: (c5L3 ++ '\n' :: (c5L4 ++ '\n' ::
        (flags.flatMap todoLineFor ++ c5Suf)))) := rfl
  rw [countChecklistLines, h0]
  rw [splitCh_append_sep '\n' c5L1 _ (by decide)]
  rw [splitCh_append_sep '\n' c5L2 _ (by decide)]
  rw [splitCh_append_sep '\n' c5L3 _ (by decide)]
  rw [splitCh_append_sep '\n' c5L4 _ (by decide)]
  rw [List.filter_cons_of_neg (by decide), List.filter_cons_of_neg (by decide),
    List.filter_cons_of_neg (by decide), List.filter_cons_of_neg (by decide)]
  exact ccAux flags

/-- The filtered checklist lines of the block below the TODO header are
exactly the generated lines, in order. -/
theorem ccFilterAux : ∀ fs : List Bool,
    (splitCh '\n' (fs.flatMap todoLineFor ++ c5Suf)).filter specChecklistLine =
      fs.map (fun b => (if b then litBoxX else litBoxO) ++ litTask) := by
  intro fs
  induction fs with
  | nil => decide
  | cons b fs ih =>
    cases b
    · have hL : ((false :: fs).flatMap todoLineFor ++ c5Suf : Str) =
          (litBoxO ++ litTask) ++ '\n' :: (fs.flatMap todoLineFor ++ c5Suf) := rfl
      rw [hL, splitCh_append_sep '\n' _ _ (by decide),
        List.filter_cons_of_pos (by decide)]
      simp [ih]
    · have hL : ((true :: fs).flatMap todoLineFor ++ c5Suf : Str) =
          (litBoxX ++ litTask) ++ '\n' :: (fs.flatMap todoLineFor ++ c5Suf) := rfl
      rw [hL, splitCh_append_sep '\n' _ _ (by decide),
        List.filter_cons_of_pos (by decide)]
      simp [ih]

/-- The checklist lines of a whole family document. -/
theorem checklist_mkTodoDoc (flags : List Bool) :
    (splitCh '\n' (mkTodoDoc flags)).filter specChecklistLine =
      flags.map (fun b => (if b then litBoxX else litBoxO) ++ litTask) := by
  have h0 : mkTodoDoc flags =
      c5L1 ++ '\n' :: (c5L2 ++ '\n' :: (c5L3 ++ '\n' :: (c5L4 ++ '\n' ::
        (flags.flatMap todoLineFor ++ c5Suf)))) := rfl
  rw [h0]
  rw [splitCh_append_sep '\n' c5L1 _ (by decide)]
  rw [splitCh_append_sep '\n' c5L2 _ (by decide)]
  rw [splitCh_append_sep '\n' c5L3 _ (by decide)]
  rw [splitCh_append_sep '\n' c5L4 _ (by decide)]
  rw [List.filter_cons_of_neg (by decide), List.filter_cons_of_neg (by decide),
    List.filter_cons_of_neg (by decide), List.filter_cons_of_neg (by decide)]
  exact ccFilterAux flags

/-- The checked flags read off a family document are the generating flags. -/
theorem checklistFlags_mkTodoDoc (flags : List Bool) :
    checklistFlags (mkTodoDoc flags) = flags := by
  rw [checklistFlags, checklist_mkTodoDoc, List.map_map]
  have h : (specChecklistChecked ∘ fun b => (if b then litBoxX else litBoxO) ++ litTask) =
      id := by
    funext b; cases b <;> rfl
  rw [h, List.map_id]

/-- The step-section scan passes the generated checklist block unchanged. -/
theorem countStep_flagBlock : ∀ (fs : List Bool) (R : Str),
    countStepGo 0 true (fs.flatMap todoLineFor ++ R) = countStepGo 0 true R := by
  intro fs R
  induction fs with
  | nil => rfl
  | cons b fs ih =>
    cases b
    · calc countStepGo 0 true ((false :: fs).flatMap todoLineFor ++ R)
          = countStepGo 0 true (fs.flatMap todoLineFor ++ R) := rfl
        _ = countStepGo 0 true R := ih
    · calc countStepGo 0 true ((true :: fs).flatMap todoLineFor ++ R)
          = countStepGo 0 true (fs.flatMap todoLineFor ++ R) := rfl
        _ = countStepGo 0 true R := ih

/-- Every family document has exactly two step sections. -/
theorem countStep_mkTodoDoc (flags : List Bool) :
    countStepSections (mkTodoDoc flags) = 2 := by
  have h1 : countStepSections (mkTodoDoc flags) =
      countStepGo 0 true (flags.flatMap todoLineFor ++ c5Suf) := rfl
  rw [h1, countStep_flagBlock]
  decide

/-- Every family document has an H1 line. -/
theorem hasH1_mkTodoDoc (flags : List Bool) : hasH1 (mkTodoDoc flags) = true := rfl

/-- Every family document has an OBJECTIVE: label. -/
theorem hasObjective_mkTodoDoc (flags : List Bool) :
    hasObjective (mkTodoDoc flags) = true := rfl

/-- Every family document has a DONE WHEN: label. -/
theorem hasDoneWhen_mkTodoDoc (flags : List Bool) :
    hasDoneWhen (mkTodoDoc flags) = true := rfl

/-- Every family document has a TODO header. -/
theorem hasTodo_mkTodoDoc (flags : List Bool) : hasTodo (mkTodoDoc flags) = true := rfl

/-- Every family document has an EXECUTE NOW: marker. -/
theorem hasExecuteNow_mkTodoDoc (flags : List Bool) :
    hasExecuteNow (mkTodoDoc flags) = true := by
  apply containsS_of_infix
  have h : litExecuteNow <:+: lowerStr c5Suf := by decide
  have h2 : lowerStr (mkTodoDoc flags) =
      lowerStr c5PreA ++ (lowerStr c5Hdr ++
        (lowerStr (flags.flatMap todoLineFor) ++ lowerStr c5Suf)) := by
    simp [mkTodoDoc, lowerStr]
  rw [h2]
  exact infix_append_left _ (infix_append_left _ (infix_append_left _ h))

/-- Full validation of a family document produces no errors. -/
theorem validate_mkTodoDoc (flags : List Bool) :
    validateInstallMd (mkTodoDoc flags) = [] := by
  rw [validateInstallMd, hasH1_mkTodoDoc, hasObjective_mkTodoDoc, hasDoneWhen_mkTodoDoc,
    hasTodo_mkTodoDoc, hasExecuteNow_mkTodoDoc, countStep_mkTodoDoc]
  rfl

/-- **C5 (amended).** Restricted to the TODO section: for every flag list,
the family document `mkTodoDoc flags` is valid install.md content whose TODO
section holds one checklist line per flag (checked exactly when the flag is
true); `parseInstallMd` returns exactly one todo item per such checklist
line, in order, with each item's `completed` flag true exactly when its
checkbox is `[x]`.  (The unrestricted claim over all checklist lines of the
document is refuted by `C5_counterexample`: a checklist line outside the TODO
section is counted by N but never extracted.) -/
theorem C5_todo_extraction_amended (flags : List Bool) :
    (parseInstallMd (mkTodoDoc flags)).isValid = true ∧
      (parseInstallMd (mkTodoDoc flags)).todoItems.length =
        countChecklistLines (mkTodoDoc flags) ∧
      countChecklistLines (mkTodoDoc flags) = flags.length ∧
      (parseInstallMd (mkTodoDoc flags)).todoItems.map TodoItem.completed =
        checklistFlags (mkTodoDoc flags) ∧
      checklistFlags (mkTodoDoc flags) = flags := by
  refine ⟨?_, ?_, countChecklist_mkTodoDoc flags, ?_, checklistFlags_mkTodoDoc flags⟩
  · have hv := validate_mkTodoDoc flags
    simp [parseInstallMd, hv]
  · show (extractTodoItems (mkTodoDoc flags)).length = countChecklistLines (mkTodoDoc flags)
    rw [extractTodo_mkTodoDoc, countChecklist_mkTodoDoc, List.length_map]
  · show (extractTodoItems (mkTodoDoc flags)).map TodoItem.completed =
      checklistFlags (mkTodoDoc flags)
    rw [extractTodo_mkTodoDoc, checklistFlags_mkTodoDoc, List.map_map]
    have h : (TodoItem.completed ∘ fun b => { text := litTask, completed := b : TodoItem }) =
        id := by
      funext b; cases b <;> rfl
    rw [h, List.map_id]

-- ===========================================================================
-- Claim C1: well-known fast path of the discovery orchestrator
-- ===========================================================================

/-- Unfolding of one step of the well-known path loop. -/
theorem wkPathsLoop_cons (env : DiscoveryEnv) (base p : Str) (ps : List Str) (st : DState) :
    wkPathsLoop env base (p :: ps) st =
      match env.fetch (base ++ p) with
      | some r =>
        if r.ok ∧ isValidLlmsTxtContent r.body then
          ({ found := true, url := some (base ++ p),
             ctype := some (if containsS p litLlmsFull then LlmsType.llmsFull
                            else LlmsType.llmsStandard),
             content := none }, (fetchW env (base ++ p) st).2)
        else wkPathsLoop env base ps (fetchW env (base ++ p) st).2
      | none => wkPathsLoop env base ps (fetchW env (base ++ p) st).2 := rfl

/-- Unfolding of one step of the well-known base loop. -/
theorem wkBasesLoop_cons (env : DiscoveryEnv) (b : Str) (bs : List Str) (st : DState) :
    wkBasesLoop env (b :: bs) st =
      if (wkPathsLoop env b wellKnownPaths st).1.found then
        wkPathsLoop env b wellKnownPaths st
      else wkBasesLoop env bs (wkPathsLoop env b wellKnownPaths st).2 := rfl

/-- A found result of the well-known path loop carries a hit URL. -/
theorem wkPathsLoop_url (env : DiscoveryEnv) (base : Str) :
    ∀ (ps : List Str) (st : DState),
      (wkPathsLoop env base ps st).1.found = true →
      ∃ u, (wkPathsLoop env base ps st).1.url = some u := by
  intro ps
  induction ps with
  | nil => intro st h; exact Bool.noConfusion h
  | cons p ps ih =>
    intro st
    rw [wkPathsLoop_cons]
    cases hfe : env.fetch (base ++ p) with
    | none => intro h; exact ih _ h
    | some r =>
      dsimp only
      split
      · intro _; exact ⟨base ++ p, rfl⟩
      · intro h; exact ih _ h

/-- A found result of the well-known base loop carries a hit URL. -/
theorem wkBasesLoop_url (env : DiscoveryEnv) :
    ∀ (bs : List Str) (st : DState),
      (wkBasesLoop env bs st).1.found = true →
      ∃ u, (wkBasesLoop env bs st).1.url = some u := by
  intro bs
  induction bs with
  | nil => intro st h; exact Bool.noConfusion h
  | cons b bs ih =>
    intro st
    rw [wkBasesLoop_cons]
    by_cases hf : (wkPathsLoop env b wellKnownPaths st).1.found = true
    · rw [if_pos hf]
      intro _; exact wkPathsLoop_url env b wellKnownPaths st hf
    · rw [if_neg hf]
      intro h; exact ih _ h

/-- A found result of `checkWellKnownPaths` carries a hit URL. -/
theorem checkWK_url (env : DiscoveryEnv) (baseUrl : Str) (st : DState)
    (h : (checkWellKnownPaths env baseUrl st).1.found = true) :
    ∃ u, (checkWellKnownPaths env baseUrl st).1.url = some u := by
  simp only [checkWellKnownPaths] at h ⊢
  cases hp : parseUrl env baseUrl with
  | none => rw [hp] at h; exact Bool.noConfusion h
  | some p => rw [hp] at h; exact wkBasesLoop_url env _ _ h

/-- **C1.** If the well-known strategy is enabled and the well-known-path
probe finds a valid hit, then `discoverLlmsTxt` returns immediately with
`found := true`, discovery method `well-known-path` and confidence `high`,
and its trace is exactly the well-known probe's trace: no other probe
strategy runs. -/
theorem C1_wellknown_fast_path (env : DiscoveryEnv) (inputUrl : Str) (opts : DiscoveryOpts)
    (hwk : stWellknown ∈ opts.strategies)
    (hfound : (checkWellKnownPaths env inputUrl initDState).1.found = true) :
    (discoverLlmsTxt env inputUrl opts).1.found = true ∧
    (discoverLlmsTxt env inputUrl opts).1.discoveryMethod = some litWellKnownPath ∧
    (discoverLlmsTxt env inputUrl opts).1.confidence = some Confidence.high ∧
    (discoverLlmsTxt env inputUrl opts).2.trace =
      (checkWellKnownPaths env inputUrl initDState).2.trace := by
  obtain ⟨u, hu⟩ := checkWK_url env inputUrl initDState hfound
  have hgoal : discoverLlmsTxt env inputUrl opts =
      ({ found := true, url := some (stripLlmsSuffix u), llmsTxtUrl := some u,
         ctype := (checkWellKnownPaths env inputUrl initDState).1.ctype,
         scannedUrls := (checkWellKnownPaths env inputUrl initDState).2.scanned ++ [u],
         timeElapsed := (checkWellKnownPaths env inputUrl initDState).2.elapsed,
         discoveryMethod := some litWellKnownPath,
         confidence := some Confidence.high, additionalInfo := none },
       { (checkWellKnownPaths env inputUrl initDState).2 with
         scanned := (checkWellKnownPaths env inputUrl initDState).2.scanned ++ [u] }) := by
    simp only [discoverLlmsTxt]
    rw [if_pos ⟨hwk, Nat.not_lt_zero opts.timeoutMs⟩, hfound, hu]
  rw [hgoal]
  exact ⟨rfl, rfl, rfl, rfl⟩

/-- Witness for C1: a concrete environment where only
`https://example.com/.well-known/llms.txt` answers with a valid body. -/
theorem C1_witness :
    stWellknown ∈ defaultOpts.strategies ∧
    (checkWellKnownPaths envC1 c1Input initDState).1.found = true ∧
    ((discoverLlmsTxt envC1 c1Input defaultOpts).1.found = true ∧
     (discoverLlmsTxt envC1 c1Input defaultOpts).1.discoveryMethod = some litWellKnownPath ∧
     (discoverLlmsTxt envC1 c1Input defaultOpts).1.confidence = some Confidence.high ∧
     (discoverLlmsTxt envC1 c1Input defaultOpts).2.trace =
       (checkWellKnownPaths envC1 c1Input initDState).2.trace) :=
  ⟨by decide, by decide, C1_wellknown_fast_path envC1 c1Input defaultOpts (by decide) (by decide)⟩

-- ===========================================================================
-- Claim C9: malformed input handling of the discovery entry point
-- ===========================================================================

/-- Unfolding of one step of the file loop of `checkForLlmsTxt`. -/
theorem checkFilesLoop_cons (env : DiscoveryEnv) (nb f : Str) (fs : List Str) (st : DState) :
    checkFilesLoop env nb (f :: fs) st =
      match env.fetch (nb ++ '/' :: f) with
      | some r =>
        if r.ok ∧ isValidLlmsTxtContent r.body then
          ({ found := true, url := some (nb ++ '/' :: f),
             ctype := some (if f = litLlmsFullTxt then LlmsType.llmsFull
                            else LlmsType.llmsStandard),
             content := some (r.body.take 500) }, (fetchW env (nb ++ '/' :: f) st).2)
        else checkFilesLoop env nb fs (fetchW env (nb ++ '/' :: f) st).2
      | none => checkFilesLoop env nb fs (fetchW env (nb ++ '/' :: f) st).2 := rfl

/-- When every fetch fails, the file loop finds nothing and leaves the
`scannedUrls` accumulator untouched. -/
theorem checkFilesLoop_fail (env : DiscoveryEnv) (hf : ∀ u, env.fetch u = none) (nb : Str) :
    ∀ (fs : List Str) (st : DState),
      (checkFilesLoop env nb fs st).1 = notFoundCheck ∧
      (checkFilesLoop env nb fs st).2.scanned = st.scanned := by
  intro fs
  induction fs with
  | nil => intro st; exact ⟨rfl, rfl⟩
  | cons f fs ih =>
    intro st
    have hstep : checkFilesLoop env nb (f :: fs) st =
        checkFilesLoop env nb fs (fetchW env (nb ++ '/' :: f) st).2 := by
      rw [checkFilesLoop_cons, hf]
    rw [hstep]
    exact ih _

/-- A one-candidate batch whose check fails yields no hit and appends exactly
that candidate's URL to `scannedUrls`. -/
theorem batchLoop_one_notfound (env : DiscoveryEnv) (tm : Nat) (c : Cand) (st : DState)
    (hel : st.elapsed = 0)
    (hres : (checkForLlmsTxt env c.url initDState).1.found = false) :
    (batchLoop env tm [[c]] st).1 = none ∧
    (batchLoop env tm [[c]] st).2.scanned = st.scanned ++ [c.url] := by
  have hguard : ¬ tm < st.elapsed := by rw [hel]; exact Nat.not_lt_zero tm
  have h1 : batchLoop env tm [[c]] st =
      if tm < st.elapsed then (none, st)
      else
        match firstFound (runBatchItems env [c]).1 with
        | some b =>
          (some b,
           { elapsed := st.elapsed + (runBatchItems env [c]).2.1,
             scanned := st.scanned ++ ([c].map (fun c => c.url)),
             trace := st.trace ++ (runBatchItems env [c]).2.2 })
        | none =>
          batchLoop env tm []
            { elapsed := st.elapsed + (runBatchItems env [c]).2.1,
              scanned := st.scanned ++ ([c].map (fun c => c.url)),
              trace := st.trace ++ (runBatchItems env [c]).2.2 } := rfl
  have h2 : firstFound (runBatchItems env [c]).1 = none := by
    have h3 : (runBatchItems env [c]).1 =
        [{ url := c.url, source := c.source,
           result := (checkForLlmsTxt env c.url initDState).1 }] := rfl
    rw [h3]
    simp [firstFound, hres]
  have h4 : batchLoop env tm [[c]] st =
      batchLoop env tm []
        { elapsed := st.elapsed + (runBatchItems env [c]).2.1,
          scanned := st.scanned ++ ([c].map (fun c => c.url)),
          trace := st.trace ++ (runBatchItems env [c]).2.2 } := by
    rw [h1, if_neg hguard, h2]
  rw [h4]
  exact ⟨rfl, rfl⟩

/-- C9 (counterexample): for the malformed input `http://` — which `new URL`
rejects and which receives no `https://` prefix since it already starts with
a scheme — discovery surfaces no failure and skips no probing: the candidate
generator falls back to the raw input, the orchestrator probes it (the trace
of fetched URLs is non-empty), and the normal not-found result is returned. -/
theorem C9_counterexample :
    parseUrl envFailAll c9Input = none ∧
    generateUrlPatterns envFailAll c9Input =
      [{ url := c9Input, priority := 0, source := litInput }] ∧
    (discoverLlmsTxt envFailAll c9Input defaultOpts).1.found = false ∧
    (discoverLlmsTxt envFailAll c9Input defaultOpts).1.scannedUrls = [c9Input] ∧
    (discoverLlmsTxt envFailAll c9Input defaultOpts).2.trace =
      [r"http://llms-full.txt".data, r"http://llms.txt".data] := by
  decide

/-- **C9 (amended).** For every input that cannot be parsed as a URL even
after prefixing `https://`, and every environment in which all fetches fail,
the discovery entry point (with the default strategy list and any timeout)
raises no error: the candidate generator falls back to the raw input as a
single priority-0 candidate, that candidate is probed, and the normal
not-found result is returned with the raw input as the only scanned URL. -/
theorem C9_invalid_input_amended (env : DiscoveryEnv) (input : Str) (opts : DiscoveryOpts)
    (hp : parseUrl env input = none)
    (hf : ∀ u, env.fetch u = none)
    (hst : opts.strategies = defaultStrategies) :
    (discoverLlmsTxt env input opts).1.found = false ∧
    (discoverLlmsTxt env input opts).1.scannedUrls = [input] ∧
    generateUrlPatterns env input = [{ url := input, priority := 0, source := litInput }] := by
  have hgen : generateUrlPatterns env input =
      [{ url := input, priority := 0, source := litInput }] := by
    simp only [generateUrlPatterns, hp]
  have hwkeq : checkWellKnownPaths env input initDState = (notFoundCheck, initDState) := by
    simp only [checkWellKnownPaths, hp]
  have hA : discoverLlmsTxt env input opts = discoverRest env input opts initDState := by
    simp only [discoverLlmsTxt]
    by_cases hc : stWellknown ∈ opts.strategies ∧ ¬ (opts.timeoutMs < initDState.elapsed)
    · rw [if_pos hc, hwkeq]
      rfl
    · rw [if_neg hc]
  have hg : gatherPhase env input defaultStrategies =
      { time := 0, trace := [], urls := [{ url := input, priority := 0, source := litInput }],
        info := emptyAddInfo } := by
    simp only [gatherPhase, parseRobotsTxt, scrapeHomepageLinks, detectDocPlatform,
      checkGitRepository, checkOpenApiEndpoints, hgen, hp]
    rfl
  have hres : (checkForLlmsTxt env input initDState).1.found = false := by
    have h := (checkFilesLoop_fail env hf (stripTrailingSlash input) filesToTry initDState).1
    show (checkFilesLoop env (stripTrailingSlash input) filesToTry initDState).1.found = false
    rw [h]
    rfl
  rw [hA]
  simp only [discoverRest, hst, hg, hp]
  rw [if_pos (⟨by decide, Nat.not_lt_zero opts.timeoutMs⟩ :
      stSitemap ∈ defaultStrategies ∧ ¬ opts.timeoutMs < initDState.elapsed + 0)]
  have hsl : sitemapLoop env opts.timeoutMs
      (List.take 3 (dedupPreserve
        (List.map (fun c : Cand => c.url)
          (List.filter (fun c : Cand => decide (c.source = litRobotsSitemap))
            ([{ url := input, priority := 0, source := litInput }] : List Cand)) ++ [])))
      { elapsed := initDState.elapsed + 0, scanned := initDState.scanned,
        trace := initDState.trace ++ [] } [] false =
      ({ elapsed := initDState.elapsed + 0, scanned := initDState.scanned,
         trace := initDState.trace ++ [] }, [], false) := rfl
  rw [hsl]
  dsimp only [List.cons_append, List.nil_append]
  rw [show dedupAndRank [{ url := input, priority := 0, source := litInput }] =
      [{ url := input, priority := 0, source := litInput }] from rfl]
  rw [show chunksOf8 [{ url := input, priority := 0, source := litInput }] =
      [[{ url := input, priority := 0, source := litInput }]] from rfl]
  obtain ⟨hb1, hb2⟩ := batchLoop_one_notfound env opts.timeoutMs
    { url := input, priority := 0, source := litInput }
    { elapsed := initDState.elapsed + 0, scanned := initDState.scanned,
      trace := initDState.trace ++ [] } rfl hres
  rw [hb1, hb2]
  exact ⟨rfl, rfl, hgen⟩

/-- Witness for the amended C9 theorem at the malformed input `https://` in
the all-failing environment. -/
theorem C9_witness :
    (discoverLlmsTxt envFailAll c9Input2 defaultOpts).1.found = false ∧
    (discoverLlmsTxt envFailAll c9Input2 defaultOpts).1.scannedUrls = [c9Input2] ∧
    generateUrlPatterns envFailAll c9Input2 =
      [{ url := c9Input2, priority := 0, source := litInput }] :=
  C9_invalid_input_amended envFailAll c9Input2 defaultOpts rfl (fun _ => rfl) rfl

-- ===========================================================================
-- Claim C2: deduplication invariants of the generator and the orchestrator
-- ===========================================================================

/-- A string not ending in `/` is unchanged by the trailing-slash strip. -/
theorem stripTrailingSlash_eq_self {s : Str} (h : s.getLast? ≠ some '/') :
    stripTrailingSlash s = s := by
  simp only [stripTrailingSlash]
  split
  · next t heq => exact absurd (by rw [← List.head?_reverse, heq]; rfl) h
  · rfl

/-- A lower-case string not ending in `/` is a fixed point of the
orchestrator's URL normalization. -/
theorem normalizeUrlKey_eq_self {u : Str} (hl : lowerStr u = u) (he : u.getLast? ≠ some '/') :
    normalizeUrlKey u = u := by
  rw [normalizeUrlKey, stripTrailingSlash_eq_self he, hl]

/-- Unfolding of one step of the key-based deduplication. -/
theorem dedupByKey_cons (key : Cand → Str) (seen : List Str) (c : Cand) (rest : List Cand) :
    dedupByKey key seen (c :: rest) =
      if key c ∈ seen then dedupByKey key seen rest
      else c :: dedupByKey key (key c :: seen) rest := rfl

/-- Deduplication yields a sublist of its input (as a set). -/
theorem dedupByKey_subset (key : Cand → Str) :
    ∀ (l : List Cand) (seen : List Str) (c : Cand), c ∈ dedupByKey key seen l → c ∈ l := by
  intro l
  induction l with
  | nil => intro seen c hc; exact absurd hc (List.not_mem_nil c)
  | cons a l ih =>
    intro seen c hc
    rw [dedupByKey_cons] at hc
    by_cases hin : key a ∈ seen
    · rw [if_pos hin] at hc
      exact List.mem_cons_of_mem a (ih seen c hc)
    · rw [if_neg hin] at hc
      rcases List.mem_cons.mp hc with rfl | hc
      · exact List.mem_cons_self c l
      · exact List.mem_cons_of_mem a (ih _ c hc)

/-- The deduplicated list has pairwise distinct keys, none in `seen`. -/
theorem dedupByKey_nodup (key : Cand → Str) :
    ∀ (l : List Cand) (seen : List Str),
      ((dedupByKey key seen l).map key).Nodup ∧
      ∀ c ∈ dedupByKey key seen l, key c ∉ seen := by
  intro l
  induction l with
  | nil =>
    intro seen
    exact ⟨List.nodup_nil, fun c hc => absurd hc (List.not_mem_nil c)⟩
  | cons a l ih =>
    intro seen
    rw [dedupByKey_cons]
    by_cases hin : key a ∈ seen
    · rw [if_pos hin]; exact ih seen
    · rw [if_neg hin]
      obtain ⟨hnd, hout⟩ := ih (key a :: seen)
      refine ⟨?_, ?_⟩
      · rw [List.map_cons, List.nodup_cons]
        refine ⟨?_, hnd⟩
        intro hmem
        obtain ⟨c, hc, hkc⟩ := List.mem_map.mp hmem
        exact hout c hc (by rw [hkc]; exact List.mem_cons_self _ _)
      · intro c hc
        rcases List.mem_cons.mp hc with rfl | hc
        · exact hin
        · exact fun hseen => hout c hc (List.mem_cons_of_mem _ hseen)

/-- A retained candidate is the first of its key in the input list. -/
theorem dedupByKey_find (key : Cand → Str) :
    ∀ (l : List Cand) (seen : List Str) (c : Cand),
      c ∈ dedupByKey key seen l →
      key c ∉ seen ∧ l.find? (fun d => decide (key d = key c)) = some c := by
  intro l
  induction l with
  | nil => intro seen c hc; exact absurd hc (List.not_mem_nil c)
  | cons a l ih =>
    intro seen c hc
    rw [dedupByKey_cons] at hc
    by_cases hin : key a ∈ seen
    · rw [if_pos hin] at hc
      obtain ⟨hns, hfind⟩ := ih seen c hc
      have hne : key a ≠ key c := fun hh => hns (hh ▸ hin)
      exact ⟨hns, by rw [List.find?_cons_of_neg l (by simpa using hne), hfind]⟩
    · rw [if_neg hin] at hc
      rcases List.mem_cons.mp hc with rfl | hc
      · exact ⟨hin, List.find?_cons_of_pos l (by simp)⟩
      · obtain ⟨hns, hfind⟩ := ih (key a :: seen) c hc
        have hne : key a ≠ key c :=
          fun hh => hns (by rw [← hh]; exact List.mem_cons_self _ _)
        refine ⟨fun hh => hns (List.mem_cons_of_mem _ hh), ?_⟩
        rw [List.find?_cons_of_neg l (by simpa using hne), hfind]

/-- When earlier key-equal candidates always carry a smaller priority, every
retained candidate has the minimal priority among its key's occurrences. -/
theorem dedupByKey_min (key : Cand → Str) :
    ∀ (l : List Cand) (seen : List Str),
      l.Pairwise (fun a b => key a = key b → a.priority ≤ b.priority) →
      ∀ c ∈ dedupByKey key seen l, ∀ c' ∈ l, key c' = key c → c.priority ≤ c'.priority := by
  intro l
  induction l with
  | nil => intro seen _ c hc; exact absurd hc (List.not_mem_nil c)
  | cons a l ih =>
    intro seen hp c hc
    rw [List.pairwise_cons] at hp
    rw [dedupByKey_cons] at hc
    by_cases hin : key a ∈ seen
    · rw [if_pos hin] at hc
      have hns := (dedupByKey_find key l seen c hc).1
      intro c' hc' hk
      rcases List.mem_cons.mp hc' with rfl | hc'
      · exact absurd (hk ▸ hin) hns
      · exact ih seen hp.2 c hc c' hc' hk
    · rw [if_neg hin] at hc
      rcases List.mem_cons.mp hc with rfl | hc
      · intro c' hc' hk
        rcases List.mem_cons.mp hc' with rfl | hc'
        · exact le_refl _
        · exact hp.1 c' hc' hk.symm
      · have hns := (dedupByKey_find key l (key a :: seen) c hc).1
        have hka : key a ≠ key c :=
          fun hh => hns (by rw [← hh]; exact List.mem_cons_self _ _)
        intro c' hc' hk
        rcases List.mem_cons.mp hc' with rfl | hc'
        · exact absurd hk hka
        · exact ih _ hp.2 c hc c' hc' hk

/-- Unfolding of one step of the priority insertion. -/
theorem insertByPriority_cons (c d : Cand) (ds : List Cand) :
    insertByPriority c (d :: ds) =
      if d.priority < c.priority then d :: insertByPriority c ds else c :: d :: ds := rfl

/-- Priority insertion permutes. -/
theorem insertByPriority_perm (c : Cand) :
    ∀ l : List Cand, List.Perm (insertByPriority c l) (c :: l) := by
  intro l
  induction l with
  | nil => exact List.Perm.refl _
  | cons d ds ih =>
    rw [insertByPriority_cons]
    split
    · exact (ih.cons d).trans (List.Perm.swap c d ds)
    · exact List.Perm.refl _

/-- The stable priority sort permutes. -/
theorem sortByPriority_perm : ∀ l : List Cand, List.Perm (sortByPriority l) l := by
  intro l
  induction l with
  | nil => exact List.Perm.refl _
  | cons c cs ih =>
    have h1 : sortByPriority (c :: cs) = insertByPriority c (sortByPriority cs) := rfl
    rw [h1]
    exact (insertByPriority_perm c _).trans (ih.cons c)

/-- Membership in the orchestrator's ranked list implies membership in its
key-based deduplication. -/
theorem dedupAndRank_mem {cands : List Cand} {c : Cand} (h : c ∈ dedupAndRank cands) :
    c ∈ dedupByKey (fun c => normalizeUrlKey c.url) [] cands := by
  simp only [dedupAndRank] at h
  exact (sortByPriority_perm _).mem_iff.mp (List.take_subset 100 _ h)

/-- The orchestrator's deduplicate-and-rank step: normalized URLs are
pairwise distinct, and each retained candidate is the first of its
normalized URL in the merged candidate list. -/
theorem dedupAndRank_spec (cands : List Cand) :
    ((dedupAndRank cands).map (fun c => normalizeUrlKey c.url)).Nodup ∧
    ∀ c ∈ dedupAndRank cands,
      cands.find? (fun d => decide (normalizeUrlKey d.url = normalizeUrlKey c.url)) = some c := by
  constructor
  · simp only [dedupAndRank]
    rw [List.map_take]
    apply List.Nodup.sublist (List.take_sublist 100 _)
    rw [((sortByPriority_perm _).map _).nodup_iff]
    exact (dedupByKey_nodup _ cands []).1
  · intro c hc
    exact (dedupByKey_find _ cands [] c (dedupAndRank_mem hc)).2

/-- Unfolding of one step of the subdomain loop. -/
theorem subEntries_cons (proto fd s : Str) (rest : List Str) (i : Nat) :
    subEntries proto fd i (s :: rest) =
      { url := proto ++ litSlashSlash ++ s ++ '.' :: fd, priority := 10 + i,
        source := litSubPattern } :: subEntries proto fd (i + 1) rest := rfl

/-- Lower priority bound of the subdomain candidates. -/
theorem subEntries_lb (proto fd : Str) :
    ∀ (subs : List Str) (i : Nat) (c : Cand),
      c ∈ subEntries proto fd i subs → 10 + i ≤ c.priority := by
  intro subs
  induction subs with
  | nil => intro i c hc; exact absurd hc (List.not_mem_nil c)
  | cons s rest ih =>
    intro i c hc
    rw [subEntries_cons] at hc
    rcases List.mem_cons.mp hc with rfl | hc
    · exact le_refl _
    · exact le_trans (by omega) (ih (i + 1) c hc)

/-- Upper priority bound of the subdomain candidates. -/
theorem subEntries_ub (proto fd : Str) :
    ∀ (subs : List Str) (i : Nat) (c : Cand),
      c ∈ subEntries proto fd i subs → c.priority < 10 + i + subs.length := by
  intro subs
  induction subs with
  | nil => intro i c hc; exact absurd hc (List.not_mem_nil c)
  | cons s rest ih =>
    intro i c hc
    rw [subEntries_cons] at hc
    rcases List.mem_cons.mp hc with rfl | hc
    · show 10 + i < 10 + i + (s :: rest).length
      simp
    · have := ih (i + 1) c hc
      rw [List.length_cons]
      omega

/-- The subdomain candidates are emitted in ascending priority order. -/
theorem subEntries_pairwise (proto fd : Str) :
    ∀ (subs : List Str) (i : Nat),
      (subEntries proto fd i subs).Pairwise (fun a b => a.priority ≤ b.priority) := by
  intro subs
  induction subs with
  | nil => intro i; exact List.Pairwise.nil
  | cons s rest ih =>
    intro i
    rw [subEntries_cons, List.pairwise_cons]
    refine ⟨?_, ih (i + 1)⟩
    intro b hb
    have := subEntries_lb proto fd rest (i + 1) b hb
    show 10 + i ≤ b.priority
    omega

/-- Shape of the URLs of the subdomain candidates. -/
theorem subEntries_url (proto fd : Str) :
    ∀ (subs : List Str) (i : Nat) (c : Cand),
      c ∈ subEntries proto fd i subs →
      ∃ s, s ∈ subs ∧ c.url = proto ++ litSlashSlash ++ s ++ '.' :: fd := by
  intro subs
  induction subs with
  | nil => intro i c hc; exact absurd hc (List.not_mem_nil c)
  | cons s rest ih =>
    intro i c hc
    rw [subEntries_cons] at hc
    rcases List.mem_cons.mp hc with rfl | hc
    · exact ⟨s, List.mem_cons_self s rest, rfl⟩
    · obtain ⟨s', hs', hurl⟩ := ih (i + 1) c hc
      exact ⟨s', List.mem_cons_of_mem s hs', hurl⟩

/-- Unfolding of one step of the doc-path loop. -/
theorem pathEntries_cons (proto fd q : Str) (rest : List Str) (i : Nat) :
    pathEntries proto fd i (q :: rest) =
      { url := proto ++ litSlashSlash ++ fd ++ q, priority := 50 + i,
        source := litPathPattern } ::
      { url := proto ++ litSlashSlash ++ litWwwDot ++ fd ++ q, priority := 51 + i,
        source := litPathPattern } ::
      pathEntries proto fd (i + 1) rest := rfl

/-- Lower priority bound of the doc-path candidates. -/
theorem pathEntries_lb (proto fd : Str) :
    ∀ (pths : List Str) (i : Nat) (c : Cand),
      c ∈ pathEntries proto fd i pths → 50 + i ≤ c.priority := by
  intro pths
  induction pths with
  | nil => intro i c hc; exact absurd hc (List.not_mem_nil c)
  | cons q rest ih =>
    intro i c hc
    rw [pathEntries_cons] at hc
    rcases List.mem_cons.mp hc with rfl | hc
    · exact le_refl _
    rcases List.mem_cons.mp hc with rfl | hc
    · show 50 + i ≤ 51 + i
      omega
    · exact le_trans (by omega) (ih (i + 1) c hc)

/-- The doc-path candidates are emitted in ascending priority order. -/
theorem pathEntries_pairwise (proto fd : Str) :
    ∀ (pths : List Str) (i : Nat),
      (pathEntries proto fd i pths).Pairwise (fun a b => a.priority ≤ b.priority) := by
  intro pths
  induction pths with
  | nil => intro i; exact List.Pairwise.nil
  | cons q rest ih =>
    intro i
    rw [pathEntries_cons, List.pairwise_cons]
    constructor
    · intro b hb
      rcases List.mem_cons.mp hb with rfl | hb
      · show 50 + i ≤ 51 + i
        omega
      · have := pathEntries_lb proto fd rest (i + 1) b hb
        show 50 + i ≤ b.priority
        omega
    rw [List.pairwise_cons]
    refine ⟨?_, ih (i + 1)⟩
    intro b hb
    have := pathEntries_lb proto fd rest (i + 1) b hb
    show 51 + i ≤ b.priority
    omega

/-- Shape of the URLs of the doc-path candidates. -/
theorem pathEntries_url (proto fd : Str) :
    ∀ (pths : List Str) (i : Nat) (c : Cand),
      c ∈ pathEntries proto fd i pths →
      ∃ q, q ∈ pths ∧
        (c.url = proto ++ litSlashSlash ++ fd ++ q ∨
         c.url = proto ++ litSlashSlash ++ litWwwDot ++ fd ++ q) := by
  intro pths
  induction pths with
  | nil => intro i c hc; exact absurd hc (List.not_mem_nil c)
  | cons q rest ih =>
    intro i c hc
    rw [pathEntries_cons] at hc
    rcases List.mem_cons.mp hc with rfl | hc
    · exact ⟨q, List.mem_cons_self q rest, Or.inl rfl⟩
    rcases List.mem_cons.mp hc with rfl | hc
    · exact ⟨q, List.mem_cons_self q rest, Or.inr rfl⟩
    · obtain ⟨q', hq', hurl⟩ := ih (i + 1) c hc
      exact ⟨q', List.mem_cons_of_mem q hq', hurl⟩

theorem genPatternList_pairwise (p : ParsedUrl) :
    (genPatternList p).Pairwise (fun a b => a.url = b.url → a.priority ≤ b.priority) := by
  have hSlen : configSubdomains.length = 31 := rfl
  have hwww : ("www".data : Str) ∉ configSubdomains := by decide
  simp only [genPatternList]
  rw [List.pairwise_append]
  refine ⟨?_, ?_, ?_⟩
  · rw [List.pairwise_append]
    refine ⟨?_, ?_, ?_⟩
    · rw [List.pairwise_append]
      refine ⟨?_, (subEntries_pairwise p.protocol p.fullDomain configSubdomains 0).imp
          (fun {a b} (h : a.priority ≤ b.priority) (_ : a.url = b.url) => h), ?_⟩
      · split
        · exact List.pairwise_singleton _ _
        · exact List.Pairwise.nil
      · intro a ha b hb
        split at ha
        · rw [List.mem_singleton] at ha
          subst ha
          intro _
          exact Nat.zero_le _
        · exact absurd ha (List.not_mem_nil a)
    · rw [List.pairwise_cons]
      refine ⟨?_, List.pairwise_singleton _ _⟩
      intro b hb
      rw [List.mem_singleton] at hb
      subst hb
      intro _
      show 5 ≤ 6
      omega
    · intro a ha b hb
      rcases List.mem_append.mp ha with ha | ha
      · split at ha
        · rw [List.mem_singleton] at ha
          subst ha
          intro _
          exact Nat.zero_le _
        · exact absurd ha (List.not_mem_nil a)
      · obtain ⟨s, hs, hurl⟩ := subEntries_url p.protocol p.fullDomain configSubdomains 0 a ha
        intro hab
        rcases List.mem_cons.mp hb with rfl | hb
        · have hab2 : (p.protocol ++ litSlashSlash) ++ (s ++ '.' :: p.fullDomain) =
              (p.protocol ++ litSlashSlash) ++ p.fullDomain := by
            rw [← List.append_assoc, ← hurl]
            exact hab
          have h2 := List.append_cancel_left hab2
          have hlen := congrArg List.length h2
          simp only [List.length_append, List.length_cons] at hlen
          omega
        · rw [List.mem_singleton] at hb
          subst hb
          have hab2 : (p.protocol ++ litSlashSlash) ++ (s ++ '.' :: p.fullDomain) =
              (p.protocol ++ litSlashSlash) ++ (litWwwDot ++ p.fullDomain) := by
            rw [← List.append_assoc, ← hurl, ← List.append_assoc]
            exact hab
          have h2 := List.append_cancel_left hab2
          have h3 : litWwwDot ++ p.fullDomain = "www".data ++ '.' :: p.fullDomain := rfl
          rw [h3] at h2
          have hsw : s = "www".data := List.append_cancel_right h2
          rw [hsw] at hs
          exact absurd hs hwww
  · exact (pathEntries_pairwise p.protocol p.fullDomain configDocPaths 0).imp
      (fun {a b} (h : a.priority ≤ b.priority) (_ : a.url = b.url) => h)
  · intro a ha b hb
    have hbp := pathEntries_lb p.protocol p.fullDomain configDocPaths 0 b hb
    intro _
    rcases List.mem_append.mp ha with ha | ha
    · rcases List.mem_append.mp ha with ha | ha
      · split at ha
        · rw [List.mem_singleton] at ha
          subst ha
          exact Nat.zero_le _
        · exact absurd ha (List.not_mem_nil a)
      · have hap := subEntries_ub p.protocol p.fullDomain configSubdomains 0 a ha
        rw [hSlen] at hap
        omega
    · rcases List.mem_cons.mp ha with rfl | ha
      · show 5 ≤ b.priority
        omega
      · rw [List.mem_singleton] at ha
        subst ha
        show 6 ≤ b.priority
        omega

theorem normKey_url (proto X : Str) (hp : lowerStr proto = proto) (hX : lowerStr X = X)
    (hXne : X ≠ []) (hXlast : X.getLast? ≠ some '/') :
    normalizeUrlKey (proto ++ litSlashSlash ++ X) = proto ++ litSlashSlash ++ X := by
  apply normalizeUrlKey_eq_self
  · rw [lowerStr_append, lowerStr_append, hp, hX,
      show lowerStr litSlashSlash = litSlashSlash from rfl]
  · rw [List.getLast?_append_of_ne_nil _ hXne]
    exact hXlast

theorem genList_norm (p : ParsedUrl) (hw : wfParsed p) :
    ∀ c ∈ genPatternList p, normalizeUrlKey c.url = c.url := by
  obtain ⟨hproto, hhost, hfd, hhne, hhsl, hfne, hfsl⟩ := hw
  have hsubsL : ∀ s ∈ configSubdomains, lowerStr s = s := by decide
  have hpaths : ∀ q ∈ configDocPaths, lowerStr q = q ∧ q ≠ [] ∧ q.getLast? ≠ some '/' := by
    decide
  have hdotfd : lowerStr ('.' :: p.fullDomain) = '.' :: p.fullDomain := by
    rw [show lowerStr ('.' :: p.fullDomain) = lowCh '.' :: lowerStr p.fullDomain from rfl, hfd,
      show lowCh '.' = '.' from rfl]
  have hdotlast : ('.' :: p.fullDomain).getLast? ≠ some '/' := by
    show ((['.'] : Str) ++ p.fullDomain).getLast? ≠ some '/'
    rw [List.getLast?_append_of_ne_nil _ hfne]
    exact hfsl
  intro c hc
  simp only [genPatternList] at hc
  rcases List.mem_append.mp hc with hc | hc
  · rcases List.mem_append.mp hc with hc | hc
    · rcases List.mem_append.mp hc with hc | hc
      · split at hc
        · rw [List.mem_singleton] at hc
          subst hc
          exact normKey_url p.protocol p.hostname hproto hhost hhne hhsl
        · exact absurd hc (List.not_mem_nil c)
      · obtain ⟨s, hs, hurl⟩ := subEntries_url p.protocol p.fullDomain configSubdomains 0 c hc
        rw [hurl, List.append_assoc (p.protocol ++ litSlashSlash) s ('.' :: p.fullDomain)]
        exact normKey_url p.protocol (s ++ '.' :: p.fullDomain) hproto
          (by rw [lowerStr_append, hsubsL s hs, hdotfd])
          (by simp)
          (by rw [List.getLast?_append_of_ne_nil _ (List.cons_ne_nil '.' p.fullDomain)]
              exact hdotlast)
    · rcases List.mem_cons.mp hc with rfl | hc
      · exact normKey_url p.protocol p.fullDomain hproto hfd hfne hfsl
      · rw [List.mem_singleton] at hc
        subst hc
        show normalizeUrlKey (p.protocol ++ litSlashSlash ++ litWwwDot ++ p.fullDomain) =
          p.protocol ++ litSlashSlash ++ litWwwDot ++ p.fullDomain
        rw [List.append_assoc (p.protocol ++ litSlashSlash) litWwwDot p.fullDomain]
        exact normKey_url p.protocol (litWwwDot ++ p.fullDomain) hproto
          (by rw [lowerStr_append, show lowerStr litWwwDot = litWwwDot from rfl, hfd])
          (fun hh => absurd (List.append_eq_nil.mp hh).1 (by decide))
          (by rw [List.getLast?_append_of_ne_nil _ hfne]
              exact hfsl)
  · obtain ⟨q, hq, hurl⟩ := pathEntries_url p.protocol p.fullDomain configDocPaths 0 c hc
    obtain ⟨hqL, hqne, hqlast⟩ := hpaths q hq
    have hfdq : p.fullDomain ++ q ≠ [] := fun hh => hqne (List.append_eq_nil.mp hh).2
    rcases hurl with hurl | hurl
    · rw [hurl, List.append_assoc (p.protocol ++ litSlashSlash) p.fullDomain q]
      exact normKey_url p.protocol (p.fullDomain ++ q) hproto
        (by rw [lowerStr_append, hfd, hqL])
        hfdq
        (by rw [List.getLast?_append_of_ne_nil _ hqne]
            exact hqlast)
    · rw [hurl, List.append_assoc ((p.protocol ++ litSlashSlash) ++ litWwwDot) p.fullDomain q,
        List.append_assoc (p.protocol ++ litSlashSlash) litWwwDot (p.fullDomain ++ q)]
      exact normKey_url p.protocol (litWwwDot ++ (p.fullDomain ++ q)) hproto
        (by rw [lowerStr_append, show lowerStr litWwwDot = litWwwDot from rfl,
            lowerStr_append, hfd, hqL])
        (fun hh => absurd (List.append_eq_nil.mp hh).1 (by decide))
        (by rw [List.getLast?_append_of_ne_nil _ hfdq,
            List.getLast?_append_of_ne_nil _ hqne]
            exact hqlast)

/-- The generator's candidates: normalized URLs are pairwise distinct, and
each retained candidate has the minimal priority among all pattern
candidates sharing its normalized URL. -/
theorem genPatternsFor_spec (p : ParsedUrl) (hw : wfParsed p) :
    ((genPatternsFor p).map (fun c => normalizeUrlKey c.url)).Nodup ∧
    ∀ c ∈ genPatternsFor p, ∀ c' ∈ genPatternList p,
      normalizeUrlKey c'.url = normalizeUrlKey c.url → c.priority ≤ c'.priority := by
  have hnorm := genList_norm p hw
  have hmem : ∀ c ∈ genPatternsFor p, c ∈ genPatternList p := by
    intro c hc
    simp only [genPatternsFor] at hc
    exact dedupByKey_subset _ _ _ _ ((sortByPriority_perm _).mem_iff.mp hc)
  constructor
  · have hcongr : (genPatternsFor p).map (fun c => normalizeUrlKey c.url) =
        (genPatternsFor p).map (fun c => c.url) :=
      List.map_congr_left (fun c hc => hnorm c (hmem c hc))
    rw [hcongr]
    have hperm : List.Perm ((genPatternsFor p).map (fun c => c.url))
        ((dedupByKey (fun c => c.url) [] (genPatternList p)).map (fun c => c.url)) := by
      simp only [genPatternsFor]
      exact (sortByPriority_perm _).map _
    rw [hperm.nodup_iff]
    exact (dedupByKey_nodup _ (genPatternList p) []).1
  · intro c hc c' hc' hk
    have hc1 : c ∈ dedupByKey (fun c => c.url) [] (genPatternList p) := by
      have hc2 := hc
      simp only [genPatternsFor] at hc2
      exact (sortByPriority_perm _).mem_iff.mp hc2
    have hurl : c'.url = c.url := by
      rw [← hnorm c' hc', ← hnorm c (hmem c hc)]
      exact hk
    exact dedupByKey_min (fun c => c.url) (genPatternList p) []
      (genPatternList_pairwise p) c hc1 c' hc' hurl

/-- C2 (counterexample): in the orchestrator's deduplicate-and-rank step, the
first-seen candidate of a normalized URL is retained even when a later
candidate sharing that normalized URL has a strictly lower priority value, so
the retained instance is not always the lowest-priority one. -/
theorem C2_counterexample :
    normalizeUrlKey c2CexA.url = normalizeUrlKey c2CexB.url ∧
    c2CexB.priority < c2CexA.priority ∧
    dedupAndRank [c2CexA, c2CexB] = [c2CexA] := by
  decide

/-- **C2 (amended).** After deduplication no two candidates share a
normalized URL, in the generator and in the orchestrator alike.  In the
orchestrator's deduplicate-and-rank step the retained instance of each
normalized URL is the first-seen one (not necessarily the lowest-priority
one, see the counterexample); in the candidate generator, on well-formed
parsed URLs, the retained instance moreover has the minimal priority among
all pattern candidates sharing its normalized URL. -/
theorem C2_dedup_amended (cands : List Cand) (p : ParsedUrl) (hw : wfParsed p) :
    (((dedupAndRank cands).map (fun c => normalizeUrlKey c.url)).Nodup ∧
     ∀ c ∈ dedupAndRank cands,
       cands.find? (fun d => decide (normalizeUrlKey d.url = normalizeUrlKey c.url)) = some c) ∧
    (((genPatternsFor p).map (fun c => normalizeUrlKey c.url)).Nodup ∧
     ∀ c ∈ genPatternsFor p, ∀ c' ∈ genPatternList p,
       normalizeUrlKey c'.url = normalizeUrlKey c.url → c.priority ≤ c'.priority) :=
  ⟨dedupAndRank_spec cands, genPatternsFor_spec p hw⟩

/-- Witness for the amended C2 theorem at the counterexample candidate pair
and the parsed form of `https://docs.example.com`. -/
theorem C2_witness :
    wfParsed c2Parsed ∧
    ((((dedupAndRank [c2CexA, c2CexB]).map (fun c => normalizeUrlKey c.url)).Nodup ∧
      ∀ c ∈ dedupAndRank [c2CexA, c2CexB],
        ([c2CexA, c2CexB] : List Cand).find?
          (fun d => decide (normalizeUrlKey d.url = normalizeUrlKey c.url)) = some c) ∧
     (((genPatternsFor c2Parsed).map (fun c => normalizeUrlKey c.url)).Nodup ∧
      ∀ c ∈ genPatternsFor c2Parsed, ∀ c' ∈ genPatternList c2Parsed,
        normalizeUrlKey c'.url = normalizeUrlKey c.url → c.priority ≤ c'.priority)) :=
  ⟨by simp only [wfParsed]; decide,
   C2_dedup_amended [c2CexA, c2CexB] c2Parsed (by simp only [wfParsed]; decide)⟩
